import Mathlib

/-!
# Verification of the `cartographer` COFF/DWARF map-file generator

Shallow embedding of the program's source (src/parse.rs, src/coff.rs,
src/mapper.rs, src/mapfile.rs) together with theorems settling the frozen
claims about its natural-language specification.

Modelling conventions:
* Byte buffers are `List Nat` (each element a byte value `< 256` in real runs;
  the arithmetic below uses bitwise or / shifts exactly as the source does, so
  the embedding agrees with the Rust code on genuine byte buffers).
* Rust `Result<T, String>` together with the possibility of a panic
  (out-of-bounds slice / index, `assert_eq!`, `Option::unwrap`) is embedded as
  `Except Failure α` with `Failure.panicked` for a panic and
  `Failure.errReturn msg` for an `Err(msg)` return value.
* `HashMap` is embedded as an association list with unique-key
  insert-or-replace semantics (`ainsert`) and first-match lookup (`alookup`).
  Iteration order of a Rust `HashMap` is unspecified (randomized), so the
  embedding's list order plays the role of one possible iteration order, and
  theorems quantify over it.
* Unbounded Rust recursion (`Mapper::build_struct`) is embedded with an
  explicit recursion-depth fuel: `none` means the call did not complete within
  the given depth.  A result that is `none` for *every* fuel is a
  non-terminating (stack-overflowing) run of the source program.
-/

namespace Cartographer

/-- Outcome of running a fallible / panicking Rust function:
`panicked` models a Rust panic (slice out of range, failed `assert_eq!`,
`Option::unwrap` on `None`); `errReturn msg` models returning `Err(msg)`. -/
inductive Failure where
  | panicked : Failure
  | errReturn : String → Failure
deriving DecidableEq, Repr

deriving instance DecidableEq for Except

/-- Lift a partial (panicking) operation into the `Except Failure` monad:
`none` becomes a panic. -/
def panicking {α : Type} : Option α → Except Failure α
  | some a => .ok a
  | none => .error .panicked

/-! ## src/parse.rs — little-endian byte field readers

`read_u16`/`read_u32` index the buffer directly and hence panic when the
buffer is too short; the embedding returns `none` in that case. -/

/-- `parse::read_u16`: `(data[offset] as u16) | ((data[offset+1] as u16) << 8)`. -/
def read_u16 (data : List Nat) (offset : Nat) : Option Nat := do
  let lo ← data.get? offset
  let hi ← data.get? (offset + 1)
  pure (lo ||| (hi <<< 8))

/-- `parse::read_u32`: low u16 at `offset`, high u16 at `offset+2`. -/
def read_u32 (data : List Nat) (offset : Nat) : Option Nat := do
  let lo ← read_u16 data offset
  let hi ← read_u16 data (offset + 2)
  pure (lo ||| (hi <<< 16))

/-- Rust slice `&data[a..b]`: defined (length `b - a`) iff `a ≤ b ≤ data.len()`,
otherwise the program panics (`none`). -/
def sliceRange (data : List Nat) (a b : Nat) : Option (List Nat) :=
  if a ≤ b ∧ b ≤ data.length then some ((data.drop a).take (b - a)) else none

/-! ## UTF-8 validation (`std::str::from_utf8`)

The source converts raw name bytes to text with `std::str::from_utf8`,
which accepts exactly well-formed (shortest-form, non-surrogate) UTF-8.
The decoder below implements that standard acceptance table. -/

/-- Strict UTF-8 decoder: `some` iff the byte list is valid UTF-8
(shortest form, no surrogates, max U+10FFFF), as `std::str::from_utf8`. -/
def utf8Decode : List Nat → Option (List Char)
  | [] => some []
  | b :: rest =>
    if b < 0x80 then
      (utf8Decode rest).map (Char.ofNat b :: ·)
    else if 0xC2 ≤ b ∧ b ≤ 0xDF then
      match rest with
      | c1 :: rest1 =>
        if 0x80 ≤ c1 ∧ c1 ≤ 0xBF then
          (utf8Decode rest1).map (Char.ofNat ((b - 0xC0) <<< 6 ||| (c1 - 0x80)) :: ·)
        else none
      | [] => none
    else if 0xE0 ≤ b ∧ b ≤ 0xEF then
      match rest with
      | c1 :: c2 :: rest2 =>
        let lo1 := if b = 0xE0 then 0xA0 else 0x80
        let hi1 := if b = 0xED then 0x9F else 0xBF
        if (lo1 ≤ c1 ∧ c1 ≤ hi1) ∧ (0x80 ≤ c2 ∧ c2 ≤ 0xBF) then
          (utf8Decode rest2).map
            (Char.ofNat ((b - 0xE0) <<< 12 ||| (c1 - 0x80) <<< 6 ||| (c2 - 0x80)) :: ·)
        else none
      | _ => none
    else if 0xF0 ≤ b ∧ b ≤ 0xF4 then
      match rest with
      | c1 :: c2 :: c3 :: rest3 =>
        let lo1 := if b = 0xF0 then 0x90 else 0x80
        let hi1 := if b = 0xF4 then 0x8F else 0xBF
        if (lo1 ≤ c1 ∧ c1 ≤ hi1) ∧ (0x80 ≤ c2 ∧ c2 ≤ 0xBF) ∧ (0x80 ≤ c3 ∧ c3 ≤ 0xBF) then
          (utf8Decode rest3).map
            (Char.ofNat ((b - 0xF0) <<< 18 ||| (c1 - 0x80) <<< 12 |||
              (c2 - 0x80) <<< 6 ||| (c3 - 0x80)) :: ·)
        else none
      | _ => none
    else none

/-- `std::str::from_utf8(bytes).ok().map(String::from)`. -/
def fromUtf8 (bytes : List Nat) : Option String :=
  (utf8Decode bytes).map fun cs => String.mk cs

/-! ## src/coff.rs — the container parser -/

/-- `coff::Header`: stores the whole file buffer; fields are read lazily at
fixed offsets (and hence panic when the buffer is too short). -/
structure Header where
  data : List Nat
deriving DecidableEq, Repr, Inhabited

/-- `Header::get_target_id`: `data[20] | data[21] << 8`. -/
def Header.get_target_id (h : Header) : Option Nat := do
  let lo ← h.data.get? 20
  let hi ← h.data.get? 21
  pure (lo ||| (hi <<< 8))

/-- `Header::number_of_sections`: `data[2] | data[3] << 8`. -/
def Header.number_of_sections (h : Header) : Option Nat := do
  let lo ← h.data.get? 2
  let hi ← h.data.get? 3
  pure (lo ||| (hi <<< 8))

/-- `Header::symbol_table_start`: `read_u32(data, 8)`. -/
def Header.symbol_table_start (h : Header) : Option Nat :=
  read_u32 h.data 8

/-- `Header::symbol_table_size`: `read_u32(data, 12)`. -/
def Header.symbol_table_size (h : Header) : Option Nat :=
  read_u32 h.data 12

/-- `Header::optional_header_size`: `read_u16(data, 16)`. -/
def Header.optional_header_size (h : Header) : Option Nat :=
  read_u16 h.data 16

/-- `coff::StringTable`: the tail of the file after the symbol table. -/
structure StringTable where
  data : List Nat
deriving DecidableEq, Repr, Inhabited

/-- `assert_eq!` / `assert!`: panics unless the condition holds. -/
def assertEq (c : Prop) [Decidable c] : Except Failure Unit :=
  if c then pure () else .error .panicked

/-- `StringTable::parse`: reads its own length from the first 4 bytes and
`assert_eq!`s it against the actual length (a mismatch panics). -/
def StringTable.parse (data : List Nat) : Except Failure StringTable := do
  let len ← panicking (read_u32 data 0)
  if len = data.length then pure ⟨data⟩ else .error .panicked

/-- The `range` computation of `StringTable::get_string`: first byte zero ⇒
bytes 4..8 are an offset into the string table (the slice
`&self.data[ptr..len]` panics when the offset is out of range); otherwise the
8 bytes themselves are the inline name. -/
def nameFieldRange (st : StringTable) (data : List Nat) (b0 : Nat) :
    Except Failure (List Nat) :=
  if b0 = 0 then do
    let ptr ← panicking (read_u32 data 4)
    panicking (sliceRange st.data ptr st.data.length)
  else
    pure data

/-- `StringTable::get_string` (continued): assert the field is 8 bytes,
compute the byte range holding the name, NUL-truncate, UTF-8 decode. -/
def StringTable.get_string (st : StringTable) (data : List Nat) :
    Except Failure (Option String) := do
  let _ ← assertEq (data.length = 8)
  let b0 ← panicking (data.get? 0)
  let range ← nameFieldRange st data b0
  let nonZero := range.takeWhile (· ≠ 0)
  pure (fromUtf8 nonZero)

/-- `coff::SectionHeader`: 48 raw bytes plus the eagerly-resolved name. -/
structure SectionHeader where
  data : List Nat
  name : String
deriving DecidableEq, Repr, Inhabited

/-- `SectionHeader::parse`: asserts the record is 48 bytes, then resolves the
name from the leading 8 bytes — `.unwrap()` panics when the name does not
decode. -/
def SectionHeader.parse (data : List Nat) (strings : StringTable) :
    Except Failure SectionHeader := do
  let _ ← assertEq (data.length = 48)
  let nameField ← panicking (sliceRange data 0 8)
  let nameOpt ← strings.get_string nameField
  let name ← panicking nameOpt
  pure ⟨data, name⟩

/-- `SectionHeader::section_start_addr`: `read_u32(data, 20)`. -/
def SectionHeader.section_start_addr (h : SectionHeader) : Option Nat :=
  read_u32 h.data 20

/-- `SectionHeader::section_length`: `read_u32(data, 16)`. -/
def SectionHeader.section_length (h : SectionHeader) : Option Nat :=
  read_u32 h.data 16

/-- `coff::SectionHeaders`: the raw table plus the decoded records. -/
structure SectionHeaders where
  data : List Nat
  headers : List SectionHeader
deriving DecidableEq, Repr, Inhabited

/-- Loop body of `SectionHeaders::parse`: decode records `0..k`, in order. -/
def parseHeadersLoop (data : List Nat) (strings : StringTable) :
    Nat → Except Failure (List SectionHeader)
  | 0 => pure []
  | k + 1 => do
    let pre ← parseHeadersLoop data strings k
    let headerData ← panicking (sliceRange data (k * 48) ((k + 1) * 48))
    let h ← SectionHeader.parse headerData strings
    pure (pre ++ [h])

/-- `SectionHeaders::parse`: asserts the table is exactly
`num_sections * 48` bytes, then decodes every record. -/
def SectionHeaders.parse (data : List Nat) (strings : StringTable)
    (numSections : Nat) : Except Failure SectionHeaders := do
  let _ ← assertEq (data.length = numSections * 48)
  let headers ← parseHeadersLoop data strings numSections
  pure ⟨data, headers⟩

/-- `coff::Section`: a header together with its payload bytes. -/
structure Section where
  header : SectionHeader
  data : List Nat
deriving DecidableEq, Repr, Inhabited

/-- `coff::SymbolTable`. -/
structure SymbolTable where
  data : List Nat
deriving DecidableEq, Repr, Inhabited

/-- The section-materialization loop of `CoffFile::parse`: headers with zero
start address or zero length are skipped; the rest slice
`[start, start+length)` out of the file buffer (panicking when out of range). -/
def materializeSections (data : List Nat) :
    List SectionHeader → Except Failure (List Section)
  | [] => pure []
  | h :: rest => do
    let startAddr ← panicking h.section_start_addr
    let len ← panicking h.section_length
    if startAddr = 0 ∨ len = 0 then
      materializeSections data rest
    else do
      let raw ← panicking (sliceRange data startAddr (startAddr + len))
      let tail ← materializeSections data rest
      pure (⟨h, raw⟩ :: tail)

/-- `coff::CoffFile`. -/
structure CoffFile where
  data : List Nat
  header : Header
  section_headers : SectionHeaders
  sections : List Section
  strings : StringTable
  symbols : SymbolTable
deriving DecidableEq, Repr, Inhabited

/-- `CoffFile::HEADER_LENGTH`. -/
def HEADER_LENGTH : Nat := 22

/-- `CoffFile::SECTION_HEADER_LENGTH`. -/
def SECTION_HEADER_LENGTH : Nat := 48

/-- `CoffFile::SYMBOL_LENGTH`. -/
def SYMBOL_LENGTH : Nat := 18

/-- `CoffFile::parse_header`: unconditionally `Ok`. -/
def parse_header (data : List Nat) : Except Failure Header :=
  .ok ⟨data⟩

/-- `CoffFile::parse`, step for step:
header, section-header table slice, symbol-table slice, string-table slice,
string-table / section-header / symbol-table decoding, then section
materialization.  All failure points are panics (`.panicked`); the function
never constructs an `Err` value. -/
def CoffFile.parse (data : List Nat) : Except Failure CoffFile := do
  let header ← parse_header data
  let optSize ← panicking header.optional_header_size
  let sectionHeadersStart := optSize + HEADER_LENGTH
  let numSections ← panicking header.number_of_sections
  let sectionHeadersEnd := sectionHeadersStart + numSections * SECTION_HEADER_LENGTH
  let sectionHeaderData ← panicking (sliceRange data sectionHeadersStart sectionHeadersEnd)
  let symbolTableStart ← panicking header.symbol_table_start
  let symbolTableSize ← panicking header.symbol_table_size
  let symbolTableEnd := symbolTableStart + symbolTableSize * SYMBOL_LENGTH
  let symbolTableData ← panicking (sliceRange data symbolTableStart symbolTableEnd)
  let stringTableData ← panicking (sliceRange data symbolTableEnd data.length)
  let stringTable ← StringTable.parse stringTableData
  let sectionHeaders ← SectionHeaders.parse sectionHeaderData stringTable numSections
  let symbolTable : SymbolTable := ⟨symbolTableData⟩
  let sections ← materializeSections data sectionHeaders.headers
  pure ⟨data, header, sectionHeaders, sections, stringTable, symbolTable⟩

/-- `CoffFile::get_section`: first materialized section with the given name. -/
def CoffFile.get_section (c : CoffFile) (name : String) : Option Section :=
  c.sections.find? fun s => s.header.name = name

/-! ## Association-list embedding of `std::collections::HashMap`

A Rust `HashMap` keeps one value per key; its iteration order is unspecified
(randomized per map).  The embedding is an association list whose order stands
for one possible iteration order; theorems quantify over that order. -/

/-- `HashMap::get` / `contains_key`: first-match lookup. -/
def alookup {α : Type} : List (Nat × α) → Nat → Option α
  | [], _ => none
  | (k, v) :: rest, key => if k = key then some v else alookup rest key

/-- `HashMap::insert` (also `get_mut` + in-place update): replace the value
at an existing key, else append the binding. -/
def ainsert {α : Type} : List (Nat × α) → Nat → α → List (Nat × α)
  | [], key, v => [(key, v)]
  | (k, w) :: rest, key, v =>
    if k = key then (k, v) :: rest else (k, w) :: ainsert rest key v

/-! ## src/mapper.rs — data model -/

/-- `mapper::StructMember` (recursive through `fields`). -/
inductive StructMember : Type where
  | mk (name : String) (type_offset : Nat) (member_offset : Nat)
      (fields : List StructMember) : StructMember

instance : Inhabited StructMember := ⟨.mk "" 0 0 []⟩

mutual

/-- Decidable equality for `StructMember` (nested through `List`). -/
def StructMember.decEq : (a b : StructMember) → Decidable (a = b)
  | .mk n1 t1 o1 f1, .mk n2 t2 o2 f2 =>
    if hn : n1 = n2 then
      if ht : t1 = t2 then
        if ho : o1 = o2 then
          match StructMember.decEqList f1 f2 with
          | isTrue hf => isTrue (by rw [hn, ht, ho, hf])
          | isFalse hf => isFalse (by intro h; injection h; exact hf (by assumption))
        else isFalse (by intro h; injection h; exact ho (by assumption))
      else isFalse (by intro h; injection h; exact ht (by assumption))
    else isFalse (by intro h; injection h; exact hn (by assumption))

/-- Decidable equality for lists of `StructMember`. -/
def StructMember.decEqList : (a b : List StructMember) → Decidable (a = b)
  | [], [] => isTrue rfl
  | [], _ :: _ => isFalse (fun h => List.noConfusion h)
  | _ :: _, [] => isFalse (fun h => List.noConfusion h)
  | a :: as, b :: bs =>
    match StructMember.decEq a b with
    | isTrue h1 =>
      match StructMember.decEqList as bs with
      | isTrue h2 => isTrue (by rw [h1, h2])
      | isFalse h2 => isFalse (by intro h; injection h; exact h2 (by assumption))
    | isFalse h1 => isFalse (by intro h; injection h; exact h1 (by assumption))

end

instance : DecidableEq StructMember := StructMember.decEq

/-- Field accessor `name`. -/
def StructMember.name : StructMember → String
  | .mk n _ _ _ => n

/-- Field accessor `type_offset`. -/
def StructMember.type_offset : StructMember → Nat
  | .mk _ t _ _ => t

/-- Field accessor `member_offset`. -/
def StructMember.member_offset : StructMember → Nat
  | .mk _ _ o _ => o

/-- Field accessor `fields`. -/
def StructMember.fields : StructMember → List StructMember
  | .mk _ _ _ f => f

/-- Functional update of the `fields` field (`member.fields = ...`). -/
def StructMember.withFields : StructMember → List StructMember → StructMember
  | .mk n t o _, f => .mk n t o f

/-- `mapper::Structure`. -/
structure Structure where
  name : Option String
  type_offset : Nat
  members : List StructMember
deriving DecidableEq, Inhabited

/-- Functional update of `Structure.members` (`strct.members = ...`). -/
def Structure.withMembers (s : Structure) (ms : List StructMember) : Structure :=
  { s with members := ms }

/-- Functional update of `Structure.name` (`strct.name = ...`). -/
def Structure.withName (s : Structure) (n : Option String) : Structure :=
  { s with name := n }

/-- `mapper::Variable`. -/
structure Variable where
  address : Nat
  name : String
  type_offset : Nat
  fields : List StructMember
deriving DecidableEq, Inhabited

/-- `mapper::Typedef`. -/
structure Typedef where
  name : String
  type_offset : Nat
deriving DecidableEq, Inhabited

/-- `mapper::Mapper` (the gimli `Encoding` is a collaborator parameter with no
bearing on the embedded logic and is dropped). -/
structure Mapper where
  typedefs : List (Nat × Typedef)
  structs : List (Nat × Structure)
  globals : List Variable
  base_types : List (Nat × String)
deriving DecidableEq, Inhabited

/-- `Mapper::new`. -/
def Mapper.new : Mapper := ⟨[], [], [], []⟩

/-- `Mapper::resolve_struct`. -/
def Mapper.resolve_struct (m : Mapper) (offset : Nat) : Option Structure :=
  alookup m.structs offset

/-! ## `Mapper::build_struct` — recursive member flattening

The source recursion has no cycle check and no depth bound; the embedding
adds an explicit recursion-depth fuel (first argument).  `none` means the run
did not complete within that depth — a result that is `none` for every fuel is
a non-terminating (stack-overflowing) source run.  `build_members` is the
`for member in &mut ret` loop of `build_struct`. -/

mutual

/-- `Mapper::build_struct`: look the structure up (`.unwrap()`), recursively
flatten its member list, record the flattened structure in `new_strcts`, and
return the flattened member list. -/
def build_struct (fuel : Nat) (structs : List (Nat × Structure))
    (acc : List (Nat × Structure)) (addr : Nat) :
    Option (List (Nat × Structure) × List StructMember) :=
  match fuel with
  | 0 => none
  | n + 1 =>
    match alookup structs addr with
    | none => none
    | some strct =>
      match build_members n structs acc strct.members with
      | none => none
      | some (acc1, ret) => some (ainsert acc1 addr (strct.withMembers ret), ret)
termination_by (fuel, 0)

/-- The member loop of `build_struct`: a member whose `type_offset` is a key
of `structs` gets its `fields` replaced by the recursive flattening of that
structure; other members are kept as they are. -/
def build_members (fuel : Nat) (structs : List (Nat × Structure))
    (acc : List (Nat × Structure)) (l : List StructMember) :
    Option (List (Nat × Structure) × List StructMember) :=
  match l with
  | [] => some (acc, [])
  | mem :: rest =>
    if (alookup structs mem.type_offset).isSome then
      match build_struct fuel structs acc mem.type_offset with
      | none => none
      | some (acc1, fields) =>
        match build_members fuel structs acc1 rest with
        | none => none
        | some (acc2, rest') => some (acc2, mem.withFields fields :: rest')
    else
      match build_members fuel structs acc rest with
      | none => none
      | some (acc2, rest') => some (acc2, mem :: rest')
termination_by (fuel, l.length + 1)

end

/-! ## `Mapper::postprocess` -/

/-- One iteration of the typedef-flattening loop of `Mapper::postprocess`:
if the typedef's target offset is a known structure, rename that structure to
the typedef's name (in place) and re-insert the renamed copy under the
typedef's own offset; likewise alias a known base type under the typedef's
offset. -/
def pass1Step (st : List (Nat × Structure) × List (Nat × String))
    (td : Nat × Typedef) : List (Nat × Structure) × List (Nat × String) :=
  let structs := st.1
  let baseTypes := st.2
  let structs :=
    match alookup structs td.2.type_offset with
    | some strct =>
      let strct := strct.withName (some td.2.name)
      ainsert (ainsert structs td.2.type_offset strct) td.1 strct
    | none => structs
  let baseTypes :=
    match alookup baseTypes td.2.type_offset with
    | some bt => ainsert baseTypes td.1 bt
    | none => baseTypes
  (structs, baseTypes)

/-- The typedef-flattening loop of `Mapper::postprocess` (`for (addr, td) in
&self.typedefs`), iterating in the order given by the association list. -/
def pass1 (typedefs : List (Nat × Typedef)) (structs : List (Nat × Structure))
    (baseTypes : List (Nat × String)) :
    List (Nat × Structure) × List (Nat × String) :=
  typedefs.foldl pass1Step (structs, baseTypes)

/-- The structure-flattening loop of `Mapper::postprocess`
(`for addr in &addrs { self.build_struct(&mut new_strcts, *addr); }`). -/
def pass2Loop (fuel : Nat) (structs : List (Nat × Structure))
    (acc : List (Nat × Structure)) :
    List Nat → Option (List (Nat × Structure))
  | [] => some acc
  | a :: rest =>
    match build_struct fuel structs acc a with
    | none => none
    | some (acc1, _) => pass2Loop fuel structs acc1 rest

/-- The whole structure-flattening pass of `Mapper::postprocess`: run
`build_struct` on every key of the structure map, accumulating the flattened
structures into a fresh map which then replaces `self.structs`. -/
def pass2 (fuel : Nat) (structs : List (Nat × Structure)) :
    Option (List (Nat × Structure)) :=
  pass2Loop fuel structs [] (structs.map Prod.fst)

/-- The global-attachment loop of `Mapper::postprocess`: a global whose
`type_offset` is a key of the (flattened) structure map receives that
structure's member list as its `fields`. -/
def attachGlobals (structs : List (Nat × Structure)) (globals : List Variable) :
    List Variable :=
  globals.map fun g =>
    match alookup structs g.type_offset with
    | some x => { g with fields := x.members }
    | none => g

/-- `Mapper::postprocess`: typedef flattening, then structure flattening
(fuel-bounded; `none` = the source run does not terminate), then global
attachment. -/
def postprocess (fuel : Nat) (m : Mapper) : Option Mapper :=
  match pass2 fuel (pass1 m.typedefs m.structs m.base_types).1 with
  | none => none
  | some structs2 =>
    some { m with
      structs := structs2
      base_types := (pass1 m.typedefs m.structs m.base_types).2
      globals := attachGlobals structs2 m.globals }

/-! ## The debug-info entry tree (external collaborator interface)

`mapper.rs` walks a gimli entry tree.  The collaborator (gimli) is external to
the repository; per the spec (§6) it exposes, for every node, a tag, typed
attribute lookup (name as text, type reference as offset, location
expression) and the children.  The location-expression evaluator is likewise
external and deterministic, so an expression is embedded by what the
evaluator produces for it: `evalOutcome` is the result of
`expr.evaluation(..).evaluate()` (the variable path, which accepts only
`RequiresRelocatedAddress`), and `firstPieceLoc` is `result()[0].location`
after evaluating with initial value 0 (the member path, which accepts only
`Location::Address`). -/

/-- Result of `Evaluation::evaluate()` as inspected by
`Mapper::process_variable`. -/
inductive EvalOutcome where
  | requiresRelocatedAddress (addr : Nat) : EvalOutcome
  | otherOutcome : EvalOutcome
deriving DecidableEq, Repr, Inhabited

/-- `result()[0].location` as inspected by `Mapper::process_struct_member`. -/
inductive PieceLoc where
  | address (addr : Nat) : PieceLoc
  | otherLoc : PieceLoc
deriving DecidableEq, Repr, Inhabited

/-- A DWARF location expression, embedded by the deterministic results the
external evaluator produces for it in the two ways the source runs it. -/
structure LocExpr where
  evalOutcome : EvalOutcome
  firstPieceLoc : PieceLoc
deriving DecidableEq, Repr, Inhabited

/-- A typed attribute value (`gimli::AttributeValue`), restricted to the
constructors the source inspects. -/
inductive AttrValue where
  | string (s : String) : AttrValue
  | debugInfoRef (offset : Nat) : AttrValue
  | exprloc (e : LocExpr) : AttrValue
  | otherAttr : AttrValue
deriving DecidableEq, Repr, Inhabited

/-- A debug-info entry-tree node: tag, debug-info offset
(`offset().to_debug_info_offset(unit)`), the four attributes the source reads
(`DW_AT_name`, `DW_AT_type`, `DW_AT_location`, `DW_AT_data_member_location`;
`none` = attribute absent), and the children. -/
inductive DieNode : Type where
  | mk (tag : Nat) (offset : Nat)
      (nameAttr : Option AttrValue) (typeAttr : Option AttrValue)
      (locationAttr : Option AttrValue) (memberLocationAttr : Option AttrValue)
      (children : List DieNode) : DieNode

instance : Inhabited DieNode := ⟨.mk 0 0 none none none none []⟩

/-- Tag accessor. -/
def DieNode.tag : DieNode → Nat
  | .mk t _ _ _ _ _ _ => t

/-- Debug-info offset accessor. -/
def DieNode.offset : DieNode → Nat
  | .mk _ o _ _ _ _ _ => o

/-- `attr_value(DW_AT_name)`. -/
def DieNode.nameAttr : DieNode → Option AttrValue
  | .mk _ _ n _ _ _ _ => n

/-- `attr_value(DW_AT_type)`. -/
def DieNode.typeAttr : DieNode → Option AttrValue
  | .mk _ _ _ t _ _ _ => t

/-- `attr_value(DW_AT_location)`. -/
def DieNode.locationAttr : DieNode → Option AttrValue
  | .mk _ _ _ _ l _ _ => l

/-- `attr_value(DW_AT_data_member_location)`. -/
def DieNode.memberLocationAttr : DieNode → Option AttrValue
  | .mk _ _ _ _ _ m _ => m

/-- Children accessor. -/
def DieNode.children : DieNode → List DieNode
  | .mk _ _ _ _ _ _ c => c

/-- `DW_TAG_member`. -/
def DW_TAG_member : Nat := 0x0d

/-- `DW_TAG_structure_type`. -/
def DW_TAG_structure_type : Nat := 0x13

/-- `DW_TAG_typedef`. -/
def DW_TAG_typedef : Nat := 0x16

/-- `DW_TAG_base_type`. -/
def DW_TAG_base_type : Nat := 0x24

/-- `DW_TAG_variable`. -/
def DW_TAG_variable : Nat := 0x34

/-! ## src/mapper.rs — the tree walk -/

/-- `Mapper::process_type`: record a base type's display name under its
offset; entries without a string name attribute are skipped. -/
def processType (m : Mapper) (node : DieNode) : Mapper :=
  match node.nameAttr with
  | some (.string name) =>
    { m with base_types := ainsert m.base_types node.offset name }
  | _ => m

/-- `Mapper::process_struct_member`: a member must carry a string name, a
`DebugInfoRef` type and an `Exprloc` member location evaluating (with initial
value 0) to a plain `Location::Address`; otherwise it is skipped (`none`). -/
def processStructMember (node : DieNode) : Option StructMember :=
  match node.nameAttr with
  | some (.string name) =>
    match node.typeAttr with
    | some (.debugInfoRef typeOffset) =>
      match node.memberLocationAttr with
      | some (.exprloc e) =>
        match e.firstPieceLoc with
        | .address addr => some (.mk name typeOffset addr [])
        | .otherLoc => none
      | _ => none
    | _ => none
  | _ => none

/-- `Mapper::process_struct_members`: children tagged `DW_TAG_member`, kept in
order, members that do not decode being dropped. -/
def processStructMembers (children : List DieNode) : List StructMember :=
  children.filterMap fun child =>
    if child.tag = DW_TAG_member then processStructMember child else none

/-- `Mapper::process_struct`: record the structure (optional name, members)
under its debug-info offset. -/
def processStruct (m : Mapper) (node : DieNode) : Mapper :=
  let name :=
    match node.nameAttr with
    | some (.string s) => some s
    | _ => none
  let offset := node.offset
  let members := processStructMembers node.children
  { m with structs := ainsert m.structs offset ⟨name, offset, members⟩ }

/-- `Mapper::process_typedef`: record `(name, referenced-type offset)` under
the typedef's own offset; entries lacking a string name or a `DebugInfoRef`
type are skipped. -/
def processTypedef (m : Mapper) (node : DieNode) : Mapper :=
  match node.nameAttr with
  | some (.string name) =>
    match node.typeAttr with
    | some (.debugInfoRef offset) =>
      { m with typedefs := ainsert m.typedefs node.offset ⟨name, offset⟩ }
    | _ => m
  | _ => m

/-- `Mapper::process_variable`: entries at `level > 1` are skipped; the entry
must carry a string name, a `DebugInfoRef` type and an `Exprloc` location
whose evaluation is `RequiresRelocatedAddress(addr)`; then
`(addr, name, type_offset)` is appended to the globals, else nothing. -/
def processVariable (m : Mapper) (node : DieNode) (level : Nat) : Mapper :=
  if level > 1 then m
  else
    match node.nameAttr with
    | some (.string name) =>
      match node.typeAttr with
      | some (.debugInfoRef typeOffset) =>
        match node.locationAttr with
        | some (.exprloc e) =>
          match e.evalOutcome with
          | .requiresRelocatedAddress addr =>
            { m with globals := m.globals ++ [⟨addr, name, typeOffset, []⟩] }
          | .otherOutcome => m
        | _ => m
      | _ => m
    | _ => m

mutual

/-- `Mapper::process_tree`: dispatch on the tag; structure / typedef /
variable / base-type entries are handled by their processors (which do not
descend further through `process_tree`); any other entry recurses into its
children with `level + 1`. -/
def processTree (m : Mapper) (node : DieNode) (level : Nat) : Mapper :=
  if node.tag = DW_TAG_structure_type then processStruct m node
  else if node.tag = DW_TAG_typedef then processTypedef m node
  else if node.tag = DW_TAG_variable then processVariable m node level
  else if node.tag = DW_TAG_base_type then processType m node
  else processTreeList m node.children (level + 1)
termination_by sizeOf node
decreasing_by
  cases node
  simp only [DieNode.children]
  simp

/-- The `while let Some(child) = children.next()` loop of
`Mapper::process_tree`: process the children left to right. -/
def processTreeList (m : Mapper) (nodes : List DieNode) (level : Nat) :
    Mapper :=
  match nodes with
  | [] => m
  | c :: rest => processTreeList (processTree m c level) rest level
termination_by sizeOf nodes
decreasing_by
  · simp
    omega
  · simp

end

/-! ## src/mapfile.rs — the map-entry projector -/

/-- `mapfile::Entry` (recursive through `fields`). -/
inductive Entry : Type where
  | mk (addr : Option Nat) (fields : List Entry) (name : Option String)
      (typ : Option String) (offset : Option Nat) : Entry

instance : Inhabited Entry := ⟨.mk none [] none none none⟩

/-- Field accessor `addr`. -/
def Entry.addr : Entry → Option Nat
  | .mk a _ _ _ _ => a

/-- Field accessor `fields`. -/
def Entry.fields : Entry → List Entry
  | .mk _ f _ _ _ => f

/-- Field accessor `name`. -/
def Entry.name : Entry → Option String
  | .mk _ _ n _ _ => n

/-- Field accessor `typ`. -/
def Entry.typ : Entry → Option String
  | .mk _ _ _ t _ => t

/-- Field accessor `offset`. -/
def Entry.offset : Entry → Option Nat
  | .mk _ _ _ _ o => o

mutual

/-- `Mapfile::member_to_entry`: a nested field entry never carries an
address; its type is looked up among the base types; its structural offset is
the member's offset; its fields are projected recursively. -/
def memberToEntry (baseTypes : List (Nat × String)) (member : StructMember) :
    Entry :=
  match member with
  | .mk name typeOffset memberOffset fields =>
    .mk none (membersToEntries baseTypes fields) (some name)
      (alookup baseTypes typeOffset) (some memberOffset)

/-- The `member.fields.iter().map(..).collect()` of
`Mapfile::member_to_entry`. -/
def membersToEntries (baseTypes : List (Nat × String)) :
    List StructMember → List Entry
  | [] => []
  | mem :: rest => memberToEntry baseTypes mem :: membersToEntries baseTypes rest

end

/-- `Mapfile::new`: one top-level entry per recorded global, in order, with
the global's name and address; fields are projected from the resolved
structure when the global's type offset names one. -/
def mapfileNew (m : Mapper) : List Entry :=
  m.globals.map fun global =>
    let fields :=
      match m.resolve_struct global.type_offset with
      | some strct => membersToEntries m.base_types strct.members
      | none => []
    .mk (some global.address) fields (some global.name)
      (alookup m.base_types global.type_offset) none

/-! ## Concrete inputs used by individual claims -/

/-- Structure `A` (offset 1) with one member of type offset 2. -/
def structA : Structure := ⟨some "A", 1, [.mk "b" 2 0 []]⟩

/-- Structure `B` (offset 2) with one member of type offset 1. -/
def structB : Structure := ⟨some "B", 2, [.mk "a" 1 0 []]⟩

/-- Mutually recursive structure map: `A` has a member of type `B` and `B`
has a member of type `A`. -/
def cyclicStructs : List (Nat × Structure) := [(1, structA), (2, structB)]

/-- A mapper whose structure map is the mutually recursive `A`/`B` pair. -/
def cyclicMapper : Mapper := ⟨[], cyclicStructs, [], []⟩

/-- Helper for claim C1: on the cyclic `A`/`B` map, `build_struct` fails to
complete within any recursion depth, from either root and whatever the
accumulator — i.e. the source recursion never terminates. -/
theorem cyclic_build_none :
    ∀ (fuel : Nat) (acc : List (Nat × Structure)),
      build_struct fuel cyclicStructs acc 1 = none ∧
      build_struct fuel cyclicStructs acc 2 = none := by
  intro fuel
  induction fuel with
  | zero => intro acc; exact ⟨by rw [build_struct], by rw [build_struct]⟩
  | succ n ih =>
    intro acc
    constructor
    · show build_struct (n + 1) cyclicStructs acc 1 = none
      rw [build_struct]
      have h1 : alookup cyclicStructs 1 = some structA := by decide
      rw [h1]
      show (match build_members n cyclicStructs acc structA.members with
        | none => none
        | some (acc1, ret) =>
            some (ainsert acc1 1 (structA.withMembers ret), ret)) = none
      have hm : build_members n cyclicStructs acc structA.members = none := by
        show build_members n cyclicStructs acc [.mk "b" 2 0 []] = none
        rw [build_members]
        simp only [StructMember.type_offset,
          show (alookup cyclicStructs 2).isSome = true from by decide, if_true,
          (ih acc).2]
      rw [hm]
    · show build_struct (n + 1) cyclicStructs acc 2 = none
      rw [build_struct]
      have h1 : alookup cyclicStructs 2 = some structB := by decide
      rw [h1]
      show (match build_members n cyclicStructs acc structB.members with
        | none => none
        | some (acc1, ret) =>
            some (ainsert acc1 2 (structB.withMembers ret), ret)) = none
      have hm : build_members n cyclicStructs acc structB.members = none := by
        show build_members n cyclicStructs acc [.mk "a" 1 0 []] = none
        rw [build_members]
        simp only [StructMember.type_offset,
          show (alookup cyclicStructs 1).isSome = true from by decide, if_true,
          (ih acc).1]
      rw [hm]

/-- C1: the recursive member-flattening pass (`postprocess` / `build_struct`)
does NOT terminate on mutually recursive structures.  On the map where `A`
(offset 1) has a member whose referenced type is `B` (offset 2) and vice
versa, `build_struct` completes within no recursion depth (`none` for every
fuel), and hence `postprocess` of a mapper holding these structures never
completes either: the source code has no cycle detection and recurses
forever, contradicting the claim that descent stops at a detected cycle with
that member's fields left empty. -/
theorem C1_flattening_diverges_on_cyclic_structs :
    ∀ (fuel : Nat) (acc : List (Nat × Structure)),
      build_struct fuel cyclicStructs acc 1 = none ∧
      postprocess fuel cyclicMapper = none := by
  intro fuel acc
  refine ⟨(cyclic_build_none fuel acc).1, ?_⟩
  show postprocess fuel cyclicMapper = none
  have h2 : pass2 fuel cyclicStructs = none := by
    show pass2Loop fuel cyclicStructs [] (cyclicStructs.map Prod.fst) = none
    have : cyclicStructs.map Prod.fst = [1, 2] := by decide
    rw [this]
    show (match build_struct fuel cyclicStructs [] 1 with
      | none => none
      | some (acc1, _) => pass2Loop fuel cyclicStructs acc1 [2]) = none
    rw [(cyclic_build_none fuel []).1]
  show (match pass2 fuel (pass1 cyclicMapper.typedefs cyclicMapper.structs
      cyclicMapper.base_types).1 with
    | none => none
    | some structs2 => some _) = none
  have hp1 : (pass1 cyclicMapper.typedefs cyclicMapper.structs
      cyclicMapper.base_types).1 = cyclicStructs := rfl
  rw [hp1, h2]

/-- A 22-byte buffer (exactly the fixed file-header region) declaring one
section with optional-header size 0: the section-header table slice
`data[22..70]` overruns the 22-byte buffer. -/
def malformedBuf : List Nat :=
  [0, 0, 1, 0, 0, 0, 0, 0, 0, 0, 0, 0, 0, 0, 0, 0, 0, 0, 0, 0, 0, 0]

/-- C2: on a buffer whose declared section count makes the header-table slice
extend beyond the buffer, `CoffFile::parse` does not return a
`MalformedContainer`-style error value: it panics (out-of-range slice), the
embedded outcome being `Failure.panicked` and never an `Err` return.  The
claim's `MalformedContainer` error return does not exist in the code. -/
theorem C2_parse_panics_instead_of_error_value :
    CoffFile.parse malformedBuf = .error .panicked ∧
    (∀ msg : String, CoffFile.parse malformedBuf ≠ .error (.errReturn msg)) := by
  constructor
  · decide
  · intro msg h
    rw [show CoffFile.parse malformedBuf = .error .panicked from by decide] at h
    exact Failure.noConfusion (Except.error.inj h)

/-- An 8-byte string table whose self-declared length matches. -/
def stringTableData : List Nat := [8, 0, 0, 0, 65, 66, 0, 0]

/-- A name field referring to string-table offset 100 — out of range of the
8-byte table. -/
def outOfRangeNameField : List Nat := [0, 0, 0, 0, 100, 0, 0, 0]

/-- An inline name field whose bytes (`0xFF …`) are not valid UTF-8. -/
def invalidTextNameField : List Nat := [255, 65, 0, 0, 0, 0, 0, 0]

/-- A 48-byte section-header record whose name field is invalid UTF-8. -/
def invalidNameHeader : List Nat := invalidTextNameField ++ List.replicate 40 0

/-- C3: name decoding does NOT uniformly return none/invalid with the header
skipped.  (a) An out-of-range string-table offset makes
`StringTable::get_string` panic (out-of-range slice) instead of returning
`None`; (b) bytes that are not valid text do yield `None`, but then
(c) `SectionHeader::parse` calls `.unwrap()` on that `None` and panics, so an
undecodable name is fatal to container parsing rather than the header being
skipped or treated as unnamed. -/
theorem C3_bad_name_panics_parse :
    StringTable.get_string ⟨stringTableData⟩ outOfRangeNameField
        = .error .panicked ∧
    StringTable.get_string ⟨stringTableData⟩ invalidTextNameField = .ok none ∧
    SectionHeader.parse invalidNameHeader ⟨stringTableData⟩
        = .error .panicked := by
  refine ⟨by decide, by decide, by decide⟩

/-! ## Claim C9: `CoffFile::parse` never returns its error variant -/

/-- The outcome is either a panic or a normal `Ok` — never a returned `Err`. -/
def okOrPanic {α : Type} (e : Except Failure α) : Prop :=
  e = .error .panicked ∨ ∃ a, e = .ok a

/-- `panicking` produces only `Ok` or a panic. -/
theorem okOrPanic_panicking {α : Type} (o : Option α) :
    okOrPanic (panicking o) := by
  cases o with
  | none => exact .inl rfl
  | some a => exact .inr ⟨a, rfl⟩

/-- `pure` is `Ok`. -/
theorem okOrPanic_pure {α : Type} (a : α) :
    okOrPanic (pure a : Except Failure α) := .inr ⟨a, rfl⟩

/-- Sequencing preserves `okOrPanic`. -/
theorem okOrPanic_bind {α β : Type} {x : Except Failure α}
    {f : α → Except Failure β} (hx : okOrPanic x)
    (hf : ∀ a, okOrPanic (f a)) : okOrPanic (x >>= f) := by
  rcases hx with h | ⟨a, h⟩
  · rw [h]; exact .inl rfl
  · rw [h]; exact hf a

/-- `assertEq` only panics or succeeds. -/
theorem okOrPanic_assertEq (c : Prop) [Decidable c] : okOrPanic (assertEq c) := by
  unfold assertEq
  split
  · exact .inr ⟨_, rfl⟩
  · exact .inl rfl

/-- `StringTable::parse` only panics or succeeds. -/
theorem okOrPanic_stringTable_parse (data : List Nat) :
    okOrPanic (StringTable.parse data) := by
  unfold StringTable.parse
  refine okOrPanic_bind (okOrPanic_panicking _) fun len => ?_
  split
  · exact .inr ⟨_, rfl⟩
  · exact .inl rfl

/-- `StringTable::get_string` only panics or succeeds. -/
theorem okOrPanic_get_string (st : StringTable) (data : List Nat) :
    okOrPanic (st.get_string data) := by
  unfold StringTable.get_string
  refine okOrPanic_bind (okOrPanic_assertEq _) fun _ => ?_
  refine okOrPanic_bind (okOrPanic_panicking _) fun b0 => ?_
  refine okOrPanic_bind ?_ fun range => okOrPanic_pure _
  unfold nameFieldRange
  split
  · exact okOrPanic_bind (okOrPanic_panicking _) fun _ => okOrPanic_panicking _
  · exact okOrPanic_pure _

/-- `SectionHeader::parse` only panics or succeeds. -/
theorem okOrPanic_sectionHeader_parse (data : List Nat) (st : StringTable) :
    okOrPanic (SectionHeader.parse data st) := by
  unfold SectionHeader.parse
  refine okOrPanic_bind (okOrPanic_assertEq _) fun _ => ?_
  refine okOrPanic_bind (okOrPanic_panicking _) fun nameField => ?_
  refine okOrPanic_bind (okOrPanic_get_string st nameField) fun nameOpt => ?_
  exact okOrPanic_bind (okOrPanic_panicking _) fun name => okOrPanic_pure _

/-- The section-header decoding loop only panics or succeeds. -/
theorem okOrPanic_parseHeadersLoop (data : List Nat) (st : StringTable)
    (k : Nat) : okOrPanic (parseHeadersLoop data st k) := by
  induction k with
  | zero => exact .inr ⟨_, rfl⟩
  | succ n ih =>
    rw [parseHeadersLoop]
    refine okOrPanic_bind ih fun pre => ?_
    refine okOrPanic_bind (okOrPanic_panicking _) fun headerData => ?_
    exact okOrPanic_bind (okOrPanic_sectionHeader_parse _ _) fun h =>
      okOrPanic_pure _

/-- `SectionHeaders::parse` only panics or succeeds. -/
theorem okOrPanic_sectionHeaders_parse (data : List Nat) (st : StringTable)
    (num : Nat) : okOrPanic (SectionHeaders.parse data st num) := by
  unfold SectionHeaders.parse
  refine okOrPanic_bind (okOrPanic_assertEq _) fun _ => ?_
  exact okOrPanic_bind (okOrPanic_parseHeadersLoop _ _ _) fun hs =>
    okOrPanic_pure _

/-- The section-materialization loop only panics or succeeds. -/
theorem okOrPanic_materializeSections (data : List Nat)
    (headers : List SectionHeader) :
    okOrPanic (materializeSections data headers) := by
  induction headers with
  | nil => exact .inr ⟨_, rfl⟩
  | cons h rest ih =>
    rw [materializeSections]
    refine okOrPanic_bind (okOrPanic_panicking _) fun st => ?_
    refine okOrPanic_bind (okOrPanic_panicking _) fun len => ?_
    split
    · exact ih
    · refine okOrPanic_bind (okOrPanic_panicking _) fun raw => ?_
      exact okOrPanic_bind ih fun tail => okOrPanic_pure _

/-- C9: `CoffFile::parse` never produces its error variant: for every input
buffer the result is either `Ok` or a panic (out-of-range slice /
`assert_eq!` / `unwrap`), embedded as `Failure.panicked` — an `Err(msg)`
return value is never constructed. -/
theorem C9_parse_never_returns_err (data : List Nat) :
    CoffFile.parse data = .error .panicked ∨
      ∃ c, CoffFile.parse data = .ok c := by
  show okOrPanic (CoffFile.parse data)
  unfold CoffFile.parse
  refine okOrPanic_bind (.inr ⟨_, rfl⟩) fun header => ?_
  refine okOrPanic_bind (okOrPanic_panicking _) fun optSize => ?_
  refine okOrPanic_bind (okOrPanic_panicking _) fun numSections => ?_
  refine okOrPanic_bind (okOrPanic_panicking _) fun sectionHeaderData => ?_
  refine okOrPanic_bind (okOrPanic_panicking _) fun symbolTableStart => ?_
  refine okOrPanic_bind (okOrPanic_panicking _) fun symbolTableSize => ?_
  refine okOrPanic_bind (okOrPanic_panicking _) fun symbolTableData => ?_
  refine okOrPanic_bind (okOrPanic_panicking _) fun stringTableData => ?_
  refine okOrPanic_bind (okOrPanic_stringTable_parse _) fun stringTable => ?_
  refine okOrPanic_bind (okOrPanic_sectionHeaders_parse _ _ _)
    fun sectionHeaders => ?_
  exact okOrPanic_bind (okOrPanic_materializeSections _ _) fun sections =>
    okOrPanic_pure _

/-! ## Claim C7: section materialization -/

/-- Inversion for a successful `Except` bind. -/
theorem bind_eq_ok {α β : Type} {x : Except Failure α} {f : α → Except Failure β}
    {b : β} (h : x >>= f = .ok b) : ∃ a, x = .ok a ∧ f a = .ok b := by
  cases x with
  | error e => exact Except.noConfusion h
  | ok a => exact ⟨a, rfl, h⟩

/-- Inversion for a successful `panicking`. -/
theorem panicking_eq_ok {α : Type} {o : Option α} {a : α}
    (h : panicking o = .ok a) : o = some a := by
  cases o with
  | none => exact Except.noConfusion h
  | some b => cases h; rfl

/-- Inversion for a successful `sliceRange`. -/
theorem sliceRange_eq_some {d : List Nat} {a b : Nat} {r : List Nat}
    (h : sliceRange d a b = some r) :
    r = (d.drop a).take (b - a) ∧ a ≤ b ∧ b ≤ d.length := by
  unfold sliceRange at h
  split at h
  · cases h
    exact ⟨rfl, by omega, by omega⟩
  · exact Option.noConfusion h

/-- A successful slice has exactly the requested length. -/
theorem sliceRange_length {d : List Nat} {a b : Nat} {r : List Nat}
    (h : sliceRange d a b = some r) : r.length = b - a := by
  obtain ⟨hr, hab, hbl⟩ := sliceRange_eq_some h
  subst hr
  simp
  omega

/-- The section-header loop decodes exactly `k` records. -/
theorem parseHeadersLoop_length {data : List Nat} {st : StringTable} :
    ∀ {k : Nat} {hs : List SectionHeader},
      parseHeadersLoop data st k = .ok hs → hs.length = k := by
  intro k
  induction k with
  | zero => intro hs h; cases h; rfl
  | succ n ih =>
    intro hs h
    rw [parseHeadersLoop] at h
    obtain ⟨pre, hpre, h⟩ := bind_eq_ok h
    obtain ⟨hd, hhd, h⟩ := bind_eq_ok h
    obtain ⟨sh, hsh, h⟩ := bind_eq_ok h
    cases h
    simp [ih hpre]

/-- `SectionHeaders::parse` decodes exactly the declared number of headers. -/
theorem sectionHeaders_parse_length {data : List Nat} {st : StringTable}
    {num : Nat} {shs : SectionHeaders}
    (h : SectionHeaders.parse data st num = .ok shs) :
    shs.headers.length = num := by
  unfold SectionHeaders.parse at h
  obtain ⟨u, hu, h⟩ := bind_eq_ok h
  obtain ⟨hs, hhs, h⟩ := bind_eq_ok h
  cases h
  exact parseHeadersLoop_length hhs

/-- A header that backs a materialized section: nonzero start and length. -/
def nonEmptyHeader (h : SectionHeader) : Bool :=
  !(h.section_start_addr == some 0 || h.section_length == some 0)

/-- Characterization of the section-materialization loop: one `Section` per
header with nonzero start and length (in order), each section's bytes being
the slice `[start, start+length)` of the file buffer, of exactly the declared
length. -/
theorem materializeSections_ok {data : List Nat} :
    ∀ {headers : List SectionHeader} {sections : List Section},
      materializeSections data headers = .ok sections →
      sections.length = headers.countP nonEmptyHeader ∧
      ∀ s ∈ sections, ∃ st l,
        s.header.section_start_addr = some st ∧
        s.header.section_length = some l ∧ st ≠ 0 ∧ l ≠ 0 ∧
        s.data = (data.drop st).take l ∧ s.data.length = l := by
  intro headers
  induction headers with
  | nil =>
    intro sections h
    cases h
    exact ⟨rfl, by intro s hs; cases hs⟩
  | cons hd rest ih =>
    intro sections h
    rw [materializeSections] at h
    obtain ⟨st, hst, h⟩ := bind_eq_ok h
    obtain ⟨l, hl, h⟩ := bind_eq_ok h
    replace hst := panicking_eq_ok hst
    replace hl := panicking_eq_ok hl
    split at h
    · rename_i hzero
      obtain ⟨hcount, hmem⟩ := ih h
      have hp : nonEmptyHeader hd = false := by
        unfold nonEmptyHeader
        rcases hzero with h0 | h0 <;> simp [hst, hl, h0]
      refine ⟨?_, hmem⟩
      rw [List.countP_cons, hp]
      simpa using hcount
    · rename_i hzero
      obtain ⟨raw, hraw, h⟩ := bind_eq_ok h
      obtain ⟨tail, htail, h⟩ := bind_eq_ok h
      cases h
      replace hraw := panicking_eq_ok hraw
      obtain ⟨hcount, hmem⟩ := ih htail
      have hp : nonEmptyHeader hd = true := by
        unfold nonEmptyHeader
        simp [hst, hl]
        omega
      constructor
      · rw [List.countP_cons, hp]
        simpa using hcount
      · intro s hs
        rcases List.mem_cons.mp hs with heq | hmem2
        · subst heq
          obtain ⟨hr, hab, hbl⟩ := sliceRange_eq_some hraw
          refine ⟨st, l, hst, hl, by omega, by omega, ?_, ?_⟩
          · simpa using hr
          · rw [show (Section.mk hd raw).data = raw from rfl,
              sliceRange_length hraw]
            omega
        · exact hmem s hmem2

/-- C7: for every successfully parsed container, exactly
`number_of_sections()` section headers are decoded; a `Section` is
materialized for each header with nonzero start offset and nonzero length by
slicing `[start, start+length)` of the file buffer; headers with zero start
or zero length produce no `Section`; and every materialized section's byte
length equals its header's declared length. -/
theorem C7_section_materialization (data : List Nat) (c : CoffFile)
    (h : CoffFile.parse data = .ok c) :
    Header.number_of_sections ⟨data⟩ = some c.section_headers.headers.length ∧
    c.sections.length = c.section_headers.headers.countP nonEmptyHeader ∧
    ∀ s ∈ c.sections, ∃ st l,
      s.header.section_start_addr = some st ∧
      s.header.section_length = some l ∧ st ≠ 0 ∧ l ≠ 0 ∧
      s.data = (data.drop st).take l ∧ s.data.length = l := by
  unfold CoffFile.parse at h
  obtain ⟨header, hheader, h⟩ := bind_eq_ok h
  obtain ⟨optSize, hopt, h⟩ := bind_eq_ok h
  obtain ⟨num, hnum, h⟩ := bind_eq_ok h
  obtain ⟨shData, hsh, h⟩ := bind_eq_ok h
  obtain ⟨sts, hsts, h⟩ := bind_eq_ok h
  obtain ⟨stsz, hstsz, h⟩ := bind_eq_ok h
  obtain ⟨symData, hsym, h⟩ := bind_eq_ok h
  obtain ⟨strData, hstr, h⟩ := bind_eq_ok h
  obtain ⟨stringTable, hstringTable, h⟩ := bind_eq_ok h
  obtain ⟨sectionHeaders, hsectionHeaders, h⟩ := bind_eq_ok h
  obtain ⟨sections, hsections, h⟩ := bind_eq_ok h
  cases h
  cases hheader
  refine ⟨?_, ?_, ?_⟩
  · rw [panicking_eq_ok hnum]
    simp [sectionHeaders_parse_length hsectionHeaders]
  · exact (materializeSections_ok hsections).1
  · exact (materializeSections_ok hsections).2

/-- A well-formed 126-byte container: 2 declared sections (`A`: start 118,
length 4; `B`: start 0, length 0 — dropped), empty symbol table starting at
122, 4-byte string table `[4,0,0,0]`. -/
def goodBuf : List Nat :=
  [0, 0, 2, 0, 0, 0, 0, 0, 122, 0, 0, 0, 0, 0, 0, 0, 0, 0, 0, 0, 0, 0]
  ++ ([65, 0, 0, 0, 0, 0, 0, 0] ++ List.replicate 8 0 ++ [4, 0, 0, 0]
      ++ [118, 0, 0, 0] ++ List.replicate 24 0)
  ++ ([66, 0, 0, 0, 0, 0, 0, 0] ++ List.replicate 8 0 ++ [0, 0, 0, 0]
      ++ [0, 0, 0, 0] ++ List.replicate 24 0)
  ++ [1, 2, 3, 4]
  ++ [4, 0, 0, 0]

/-- The container parsed from `goodBuf`. -/
def goodCoff : CoffFile :=
  match CoffFile.parse goodBuf with
  | .ok c => c
  | _ => default

set_option maxRecDepth 10000 in
/-- Witness for C7: the concrete container `goodBuf` parses successfully and
the materialization properties hold for it. -/
theorem C7_witness :
    Header.number_of_sections ⟨goodBuf⟩
        = some goodCoff.section_headers.headers.length ∧
    goodCoff.sections.length
        = goodCoff.section_headers.headers.countP nonEmptyHeader ∧
    ∀ s ∈ goodCoff.sections, ∃ st l,
      s.header.section_start_addr = some st ∧
      s.header.section_length = some l ∧ st ≠ 0 ∧ l ≠ 0 ∧
      s.data = (goodBuf.drop st).take l ∧ s.data.length = l :=
  C7_section_materialization goodBuf goodCoff (by decide)

/-! ## Claim C8: which variable entries become globals -/

/-- `process_struct` does not touch the globals. -/
theorem processStruct_globals (m : Mapper) (node : DieNode) :
    (processStruct m node).globals = m.globals := rfl

/-- `process_typedef` does not touch the globals. -/
theorem processTypedef_globals (m : Mapper) (node : DieNode) :
    (processTypedef m node).globals = m.globals := by
  unfold processTypedef
  repeat' split
  all_goals rfl

/-- `process_type` does not touch the globals. -/
theorem processType_globals (m : Mapper) (node : DieNode) :
    (processType m node).globals = m.globals := by
  unfold processType
  repeat' split
  all_goals rfl

mutual

/-- Below nesting level 1, the walk records no global: any subtree entered at
`level ≥ 2` leaves the globals list unchanged. -/
theorem processTree_deep_globals (m : Mapper) (node : DieNode) (level : Nat)
    (h : 2 ≤ level) : (processTree m node level).globals = m.globals := by
  rw [processTree]
  split
  · exact processStruct_globals m node
  · split
    · exact processTypedef_globals m node
    · split
      · unfold processVariable
        rw [if_pos (by omega)]
      · split
        · exact processType_globals m node
        · exact processTreeList_deep_globals m node.children (level + 1)
            (by omega)
termination_by sizeOf node
decreasing_by
  cases node
  simp only [DieNode.children]
  simp

/-- List version of `processTree_deep_globals`. -/
theorem processTreeList_deep_globals (m : Mapper) (nodes : List DieNode)
    (level : Nat) (h : 2 ≤ level) :
    (processTreeList m nodes level).globals = m.globals := by
  match nodes with
  | [] => rw [processTreeList]
  | c :: rest =>
    rw [processTreeList]
    rw [processTreeList_deep_globals (processTree m c level) rest level h]
    exact processTree_deep_globals m c level h
termination_by sizeOf nodes
decreasing_by
  all_goals try simp
  all_goals omega

end

/-- C8: a variable entry is recorded as a global only when its nesting level
is at most 1 and it carries a string name, a type reference and a location
expression evaluating to a relocated address — in that case exactly
`(addr, name, type_offset)` is appended to the globals; in every other case
the mapper is left unchanged (the walk continues).  Moreover the whole walk
records no global from any subtree entered at level ≥ 2. -/
theorem C8_variable_recording :
    (∀ (m : Mapper) (node : DieNode) (level : Nat), 2 ≤ level →
      (processTree m node level).globals = m.globals) ∧
    (∀ (m : Mapper) (node : DieNode) (level : Nat),
      processVariable m node level = m ∨
      (level ≤ 1 ∧ ∃ name typeOffset e addr,
        node.nameAttr = some (.string name) ∧
        node.typeAttr = some (.debugInfoRef typeOffset) ∧
        node.locationAttr = some (.exprloc e) ∧
        e.evalOutcome = .requiresRelocatedAddress addr ∧
        processVariable m node level =
          { m with globals := m.globals ++ [⟨addr, name, typeOffset, []⟩] })) := by
  constructor
  · exact fun m node level h => processTree_deep_globals m node level h
  · intro m node level
    obtain ⟨tag, off, nm, ty, loc, mloc, children⟩ := node
    by_cases hlev : level > 1
    · left
      unfold processVariable
      rw [if_pos hlev]
    · unfold processVariable
      rw [if_neg hlev]
      simp only [DieNode.nameAttr, DieNode.typeAttr, DieNode.locationAttr]
      cases nm with
      | none => exact .inl rfl
      | some av =>
        cases av with
        | string name =>
          cases ty with
          | none => exact .inl rfl
          | some tv =>
            cases tv with
            | debugInfoRef typeOffset =>
              cases loc with
              | none => exact .inl rfl
              | some lv =>
                cases lv with
                | exprloc e =>
                  obtain ⟨evalO, pieceL⟩ := e
                  cases evalO with
                  | requiresRelocatedAddress addr =>
                    exact .inr ⟨by omega, name, typeOffset,
                      ⟨.requiresRelocatedAddress addr, pieceL⟩, addr,
                      rfl, rfl, rfl, rfl, rfl⟩
                  | otherOutcome => exact .inl rfl
                | string s => exact .inl rfl
                | debugInfoRef o => exact .inl rfl
                | otherAttr => exact .inl rfl
            | string s => exact .inl rfl
            | exprloc e => exact .inl rfl
            | otherAttr => exact .inl rfl
        | debugInfoRef o => exact .inl rfl
        | exprloc e => exact .inl rfl
        | otherAttr => exact .inl rfl

/-- A well-formed variable node (good name / type / location attributes). -/
def goodVarNode : DieNode :=
  .mk DW_TAG_variable 7 (some (.string "g")) (some (.debugInfoRef 20))
    (some (.exprloc ⟨.requiresRelocatedAddress 4096, .otherLoc⟩)) none []

/-- A non-dispatch parent node (compile-unit-like tag) holding the variable. -/
def wrapperNode : DieNode :=
  .mk 0x11 0 none none none none [goodVarNode]

/-- Witness for C8: even a fully well-formed variable node inside a subtree
entered at level 2 contributes no global. -/
theorem C8_witness :
    (processTree Mapper.new wrapperNode 2).globals = Mapper.new.globals :=
  C8_variable_recording.1 Mapper.new wrapperNode 2 (by omega)

/-! ## Claim C10: only top-level map-file entries carry addresses -/

mutual

/-- No entry in this tree (the root included) carries an address. -/
def entryAddrFree (e : Entry) : Bool :=
  match e with
  | .mk a f _ _ _ => a.isNone && entryListAddrFree f

/-- List version of `entryAddrFree`. -/
def entryListAddrFree (l : List Entry) : Bool :=
  match l with
  | [] => true
  | e :: rest => entryAddrFree e && entryListAddrFree rest

end

mutual

/-- Every entry produced by `member_to_entry` is address-free, at every
nesting depth. -/
theorem memberToEntry_addrFree (baseTypes : List (Nat × String))
    (member : StructMember) :
    entryAddrFree (memberToEntry baseTypes member) = true := by
  match member with
  | .mk name typeOffset memberOffset fields =>
    rw [memberToEntry, entryAddrFree]
    rw [membersToEntries_addrFree baseTypes fields]
    rfl

/-- List version of `memberToEntry_addrFree`. -/
theorem membersToEntries_addrFree (baseTypes : List (Nat × String))
    (l : List StructMember) :
    entryListAddrFree (membersToEntries baseTypes l) = true := by
  match l with
  | [] => rw [membersToEntries, entryListAddrFree]
  | mem :: rest =>
    rw [membersToEntries, entryListAddrFree]
    rw [memberToEntry_addrFree baseTypes mem,
      membersToEntries_addrFree baseTypes rest]
    rfl

end

/-- C10: the projected map file has exactly one top-level entry per recorded
global, in order, carrying that global's name and address; and every nested
field entry below a top-level entry (all of which come from
`member_to_entry`) has no address, at every nesting depth. -/
theorem C10_only_top_entries_have_addresses (m : Mapper) :
    List.Forall₂
      (fun (g : Variable) (e : Entry) =>
        e.addr = some g.address ∧ e.name = some g.name ∧
        entryListAddrFree e.fields = true)
      m.globals (mapfileNew m) := by
  unfold mapfileNew
  rw [List.forall₂_map_right_iff]
  rw [List.forall₂_same]
  intro g hg
  refine ⟨rfl, rfl, ?_⟩
  show entryListAddrFree (match m.resolve_struct g.type_offset with
    | some strct => membersToEntries m.base_types strct.members
    | none => []) = true
  cases m.resolve_struct g.type_offset with
  | none => rfl
  | some strct => exact membersToEntries_addrFree m.base_types strct.members

/-! ## Analysis of the flattening pass

`build_struct` threads its `new_strcts` accumulator write-only: the member
list it returns depends only on the (read-only) structure map and the root
offset.  `flatMembers`/`flatMemList` compute that value directly; the lemmas
below relate them to `build_struct`/`build_members` and characterize the map
produced by the flattening pass. -/

mutual

/-- The member list returned by `build_struct fuel structs _ addr`,
accumulator elided. -/
def flatMembers (fuel : Nat) (structs : List (Nat × Structure)) (addr : Nat) :
    Option (List StructMember) :=
  match fuel with
  | 0 => none
  | n + 1 =>
    match alookup structs addr with
    | none => none
    | some strct => flatMemList n structs strct.members
termination_by (fuel, 0)

/-- The member list returned by `build_members fuel structs _ l`,
accumulator elided. -/
def flatMemList (fuel : Nat) (structs : List (Nat × Structure))
    (l : List StructMember) : Option (List StructMember) :=
  match l with
  | [] => some []
  | mem :: rest =>
    if (alookup structs mem.type_offset).isSome then
      match flatMembers fuel structs mem.type_offset with
      | none => none
      | some fields =>
        match flatMemList fuel structs rest with
        | none => none
        | some rest' => some (mem.withFields fields :: rest')
    else
      match flatMemList fuel structs rest with
      | none => none
      | some rest' => some (mem :: rest')
termination_by (fuel, l.length + 1)

end

/-- Lookup after insert: the inserted key maps to the new value, everything
else is unchanged. -/
theorem alookup_ainsert {α : Type} (l : List (Nat × α)) (k : Nat) (v : α)
    (x : Nat) :
    alookup (ainsert l k v) x = if k = x then some v else alookup l x := by
  induction l with
  | nil => rfl
  | cons p rest ih =>
    obtain ⟨pk, pv⟩ := p
    show alookup (if pk = k then (pk, v) :: rest else (pk, pv) :: ainsert rest k v) x = _
    by_cases hk : pk = k
    · rw [if_pos hk]
      subst hk
      show (if pk = x then some v else alookup rest x)
        = if pk = x then some v else if pk = x then some pv else alookup rest x
      by_cases hx : pk = x
      · rw [if_pos hx, if_pos hx]
      · rw [if_neg hx, if_neg hx, if_neg hx]
    · rw [if_neg hk]
      show (if pk = x then some pv else alookup (ainsert rest k v) x)
        = if k = x then some v else if pk = x then some pv else alookup rest x
      by_cases hx : pk = x
      · rw [if_pos hx]
        have hkx : ¬ k = x := fun h => hk (hx.trans h.symm)
        rw [if_neg hkx, if_pos hx]
      · rw [if_neg hx, ih]
        by_cases hkx : k = x
        · rw [if_pos hkx, if_pos hkx]
        · rw [if_neg hkx, if_neg hkx, if_neg hx]

/-- `withFields` keeps the other three member fields. -/
theorem withFields_spec (mem : StructMember) (f : List StructMember) :
    (mem.withFields f).name = mem.name ∧
    (mem.withFields f).type_offset = mem.type_offset ∧
    (mem.withFields f).member_offset = mem.member_offset ∧
    (mem.withFields f).fields = f := by
  cases mem
  exact ⟨rfl, rfl, rfl, rfl⟩

/-- Two members agreeing on name, type and offset give equal `withFields`. -/
theorem withFields_congr {mem mem' : StructMember}
    (hn : mem'.name = mem.name) (ht : mem'.type_offset = mem.type_offset)
    (ho : mem'.member_offset = mem.member_offset) (f : List StructMember) :
    mem'.withFields f = mem.withFields f := by
  cases mem
  cases mem'
  simp only [StructMember.name, StructMember.type_offset,
    StructMember.member_offset] at hn ht ho
  rw [StructMember.withFields, StructMember.withFields, hn, ht, ho]

mutual

/-- The member list `build_struct` returns does not depend on the
accumulator: it is `flatMembers`. -/
theorem build_struct_snd (fuel : Nat) (structs acc : List (Nat × Structure))
    (addr : Nat) :
    (build_struct fuel structs acc addr).map Prod.snd
      = flatMembers fuel structs addr := by
  match fuel with
  | 0 => rw [build_struct, flatMembers]; rfl
  | n + 1 =>
    rw [build_struct, flatMembers]
    cases halk : alookup structs addr with
    | none => rfl
    | some strct =>
      show (match build_members n structs acc strct.members with
        | none => none
        | some (acc1, ret) =>
            some (ainsert acc1 addr (strct.withMembers ret), ret)).map Prod.snd
        = flatMemList n structs strct.members
      have hbm := build_members_snd n structs acc strct.members
      cases hbuild : build_members n structs acc strct.members with
      | none =>
        rw [hbuild] at hbm
        exact hbm
      | some pr =>
        obtain ⟨acc1, ret⟩ := pr
        rw [hbuild] at hbm
        have hbm2 : flatMemList n structs strct.members = some ret := hbm.symm
        rw [hbm2]
        rfl
termination_by (fuel, 0)

/-- The member list `build_members` returns does not depend on the
accumulator: it is `flatMemList`. -/
theorem build_members_snd (fuel : Nat) (structs acc : List (Nat × Structure))
    (l : List StructMember) :
    (build_members fuel structs acc l).map Prod.snd
      = flatMemList fuel structs l := by
  match l with
  | [] => rw [build_members, flatMemList]; rfl
  | mem :: rest =>
    rw [build_members, flatMemList]
    by_cases hin : (alookup structs mem.type_offset).isSome
    · rw [if_pos hin, if_pos hin]
      have hbs := build_struct_snd fuel structs acc mem.type_offset
      cases hbuild : build_struct fuel structs acc mem.type_offset with
      | none =>
        rw [hbuild] at hbs
        have hbs2 : flatMembers fuel structs mem.type_offset = none := hbs.symm
        rw [hbs2]
        rfl
      | some pr =>
        obtain ⟨acc1, fields⟩ := pr
        rw [hbuild] at hbs
        have hbs2 : flatMembers fuel structs mem.type_offset = some fields :=
          hbs.symm
        rw [hbs2]
        show (match build_members fuel structs acc1 rest with
          | none => none
          | some (acc2, rest') =>
              some (acc2, mem.withFields fields :: rest')).map Prod.snd
          = match flatMemList fuel structs rest with
            | none => none
            | some rest' => some (mem.withFields fields :: rest')
        have hbm := build_members_snd fuel structs acc1 rest
        cases hb2 : build_members fuel structs acc1 rest with
        | none =>
          rw [hb2] at hbm
          have hbm2 : flatMemList fuel structs rest = none := hbm.symm
          rw [hbm2]
          rfl
        | some pr2 =>
          obtain ⟨acc2, rest2⟩ := pr2
          rw [hb2] at hbm
          have hbm2 : flatMemList fuel structs rest = some rest2 := hbm.symm
          rw [hbm2]
          rfl
    · rw [if_neg hin, if_neg hin]
      have hbm := build_members_snd fuel structs acc rest
      cases hb2 : build_members fuel structs acc rest with
      | none =>
        rw [hb2] at hbm
        have hbm2 : flatMemList fuel structs rest = none := hbm.symm
        rw [hbm2]
        rfl
      | some pr2 =>
        obtain ⟨acc2, rest2⟩ := pr2
        rw [hb2] at hbm
        have hbm2 : flatMemList fuel structs rest = some rest2 := hbm.symm
        rw [hbm2]
        rfl
termination_by (fuel, l.length + 1)

end

mutual

/-- Two successful flattenings of the same root agree, whatever the fuels. -/
theorem flatMembers_fuel_irrel (k k' : Nat)
    (structs : List (Nat × Structure)) (addr : Nat) (r r' : List StructMember)
    (h : flatMembers k structs addr = some r)
    (h' : flatMembers k' structs addr = some r') : r = r' := by
  match k, k' with
  | 0, _ =>
    rw [flatMembers] at h
    exact Option.noConfusion h
  | n + 1, 0 =>
    rw [flatMembers] at h'
    exact Option.noConfusion h'
  | n + 1, n' + 1 =>
    rw [flatMembers] at h h'
    cases halk : alookup structs addr with
    | none =>
      rw [halk] at h
      exact Option.noConfusion h
    | some strct =>
      rw [halk] at h h'
      have h2 : flatMemList n structs strct.members = some r := h
      have h2' : flatMemList n' structs strct.members = some r' := h'
      exact flatMemList_fuel_irrel n n' structs strct.members r r' h2 h2'
termination_by (k, 0)

/-- List version of `flatMembers_fuel_irrel`. -/
theorem flatMemList_fuel_irrel (k k' : Nat)
    (structs : List (Nat × Structure)) (l : List StructMember)
    (r r' : List StructMember)
    (h : flatMemList k structs l = some r)
    (h' : flatMemList k' structs l = some r') : r = r' := by
  match l with
  | [] =>
    rw [flatMemList] at h h'
    cases h
    cases h'
    rfl
  | mem :: rest =>
    rw [flatMemList] at h h'
    by_cases hin : (alookup structs mem.type_offset).isSome = true
    · rw [if_pos hin] at h h'
      cases hf : flatMembers k structs mem.type_offset with
      | none =>
        rw [hf] at h
        exact Option.noConfusion h
      | some fields =>
        rw [hf] at h
        cases hf' : flatMembers k' structs mem.type_offset with
        | none =>
          rw [hf'] at h'
          exact Option.noConfusion h'
        | some fields' =>
          rw [hf'] at h'
          cases hr : flatMemList k structs rest with
          | none =>
            rw [hr] at h
            exact Option.noConfusion h
          | some rest2 =>
            rw [hr] at h
            cases hr' : flatMemList k' structs rest with
            | none =>
              rw [hr'] at h'
              exact Option.noConfusion h'
            | some rest2' =>
              rw [hr'] at h'
              have e1 : fields = fields' :=
                flatMembers_fuel_irrel k k' structs mem.type_offset
                  fields fields' hf hf'
              have e2 : rest2 = rest2' :=
                flatMemList_fuel_irrel k k' structs rest rest2 rest2' hr hr'
              cases h
              cases h'
              rw [e1, e2]
    · rw [if_neg hin] at h h'
      cases hr : flatMemList k structs rest with
      | none =>
        rw [hr] at h
        exact Option.noConfusion h
      | some rest2 =>
        rw [hr] at h
        cases hr' : flatMemList k' structs rest with
        | none =>
          rw [hr'] at h'
          exact Option.noConfusion h'
        | some rest2' =>
          rw [hr'] at h'
          have e2 : rest2 = rest2' :=
            flatMemList_fuel_irrel k k' structs rest rest2 rest2' hr hr'
          cases h
          cases h'
          rw [e2]
termination_by (k, l.length + 1)

end

/-- Flattening depends on the looked-up structure only through its member
list. -/
theorem flatMembers_congr (n : Nat) (structs : List (Nat × Structure))
    (x y : Nat) (sx sy : Structure)
    (hx : alookup structs x = some sx) (hy : alookup structs y = some sy)
    (hm : sx.members = sy.members) :
    flatMembers n structs x = flatMembers n structs y := by
  match n with
  | 0 => rw [flatMembers, flatMembers]
  | k + 1 =>
    rw [flatMembers, flatMembers, hx, hy]
    show flatMemList k structs sx.members = flatMemList k structs sy.members
    rw [hm]

/-- A successful lookup's key is among the association-list keys. -/
theorem alookup_mem_keys {α : Type} :
    ∀ {l : List (Nat × α)} {x : Nat} {v : α},
      alookup l x = some v → x ∈ l.map Prod.fst := by
  intro l
  induction l with
  | nil => intro x v h; exact Option.noConfusion h
  | cons p rest ih =>
    intro x v h
    obtain ⟨pk, pv⟩ := p
    rw [alookup] at h
    by_cases hk : pk = x
    · subst hk
      exact List.mem_cons_self _ _
    · rw [if_neg hk] at h
      exact List.mem_cons_of_mem _ (ih h)

/-- Every binding in the accumulator is canonical: its key is a key of the
structure map and its value is that structure with flattened members. -/
def canonAcc (structs acc : List (Nat × Structure)) : Prop :=
  ∀ x v, alookup acc x = some v →
    ∃ s k r, alookup structs x = some s ∧ flatMembers k structs x = some r ∧
      v = s.withMembers r

mutual

/-- A successful `build_struct` call keeps the accumulator canonical, keeps
every present key present, and leaves its root inserted. -/
theorem build_struct_acc (fuel : Nat) (structs acc : List (Nat × Structure))
    (addr : Nat) (acc' : List (Nat × Structure)) (ret : List StructMember)
    (h : build_struct fuel structs acc addr = some (acc', ret))
    (hc : canonAcc structs acc) :
    canonAcc structs acc' ∧
    (∀ x, (alookup acc x).isSome → (alookup acc' x).isSome) ∧
    (alookup acc' addr).isSome := by
  match fuel with
  | 0 =>
    rw [build_struct] at h
    exact Option.noConfusion h
  | n + 1 =>
    have hflat : flatMembers (n + 1) structs addr = some ret := by
      rw [← build_struct_snd (n + 1) structs acc addr, h]
      rfl
    rw [build_struct] at h
    cases halk : alookup structs addr with
    | none =>
      rw [halk] at h
      exact Option.noConfusion h
    | some strct =>
      rw [halk] at h
      have h' : (match build_members n structs acc strct.members with
        | none => none
        | some (acc1, ret) =>
            some (ainsert acc1 addr (strct.withMembers ret), ret))
          = some (acc', ret) := h
      cases hbm : build_members n structs acc strct.members with
      | none =>
        rw [hbm] at h'
        exact Option.noConfusion h'
      | some pr =>
        obtain ⟨acc1, ret1⟩ := pr
        rw [hbm] at h'
        have hinj : acc' = ainsert acc1 addr (strct.withMembers ret1)
            ∧ ret = ret1 := by
          have h2 : (ainsert acc1 addr (strct.withMembers ret1), ret1)
              = (acc', ret) := Option.some.inj h' 
          exact ⟨(Prod.mk.injEq _ _ _ _ ▸ h2).1.symm,
            (Prod.mk.injEq _ _ _ _ ▸ h2).2.symm⟩
        obtain ⟨hacc', hret⟩ := hinj
        subst hacc'
        subst hret
        obtain ⟨hc1, hmono1⟩ := build_members_acc n structs acc
          strct.members acc1 ret hbm hc
        refine ⟨?_, ?_, ?_⟩
        · intro x v hv
          rw [alookup_ainsert] at hv
          by_cases hax : addr = x
          · rw [if_pos hax] at hv
            subst hax
            exact ⟨strct, n + 1, ret, halk, hflat, (Option.some.inj hv).symm⟩
          · rw [if_neg hax] at hv
            exact hc1 x v hv
        · intro x hx
          rw [alookup_ainsert]
          by_cases hax : addr = x
          · rw [if_pos hax]; rfl
          · rw [if_neg hax]
            exact hmono1 x hx
        · rw [alookup_ainsert, if_pos rfl]
          rfl
termination_by (fuel, 0)

/-- A successful `build_members` call keeps the accumulator canonical and
keeps every present key present. -/
theorem build_members_acc (fuel : Nat) (structs acc : List (Nat × Structure))
    (l : List StructMember) (acc' : List (Nat × Structure))
    (ret : List StructMember)
    (h : build_members fuel structs acc l = some (acc', ret))
    (hc : canonAcc structs acc) :
    canonAcc structs acc' ∧
    (∀ x, (alookup acc x).isSome → (alookup acc' x).isSome) := by
  match l with
  | [] =>
    rw [build_members] at h
    have h2 : (acc, ([] : List StructMember)) = (acc', ret) :=
      Option.some.inj h
    have hacc : acc = acc' := (Prod.mk.injEq _ _ _ _ ▸ h2).1
    subst hacc
    exact ⟨hc, fun x hx => hx⟩
  | mem :: rest =>
    rw [build_members] at h
    by_cases hin : (alookup structs mem.type_offset).isSome = true
    · rw [if_pos hin] at h
      cases hbs : build_struct fuel structs acc mem.type_offset with
      | none =>
        rw [hbs] at h
        exact Option.noConfusion h
      | some pr =>
        obtain ⟨acc1, fields⟩ := pr
        rw [hbs] at h
        have h' : (match build_members fuel structs acc1 rest with
          | none => none
          | some (acc2, rest') =>
              some (acc2, mem.withFields fields :: rest'))
            = some (acc', ret) := h
        cases hb2 : build_members fuel structs acc1 rest with
        | none =>
          rw [hb2] at h'
          exact Option.noConfusion h'
        | some pr2 =>
          obtain ⟨acc2, rest2⟩ := pr2
          rw [hb2] at h'
          have h2 : (acc2, mem.withFields fields :: rest2) = (acc', ret) :=
            Option.some.inj h'
          have hacc : acc2 = acc' := (Prod.mk.injEq _ _ _ _ ▸ h2).1
          obtain ⟨hc1, hmono1, _⟩ := build_struct_acc fuel structs acc
            mem.type_offset acc1 fields hbs hc
          obtain ⟨hc2, hmono2⟩ := build_members_acc fuel structs acc1 rest
            acc2 rest2 hb2 hc1
          rw [hacc] at hc2 hmono2
          exact ⟨hc2, fun x hx => hmono2 x (hmono1 x hx)⟩
    · rw [if_neg hin] at h
      cases hb2 : build_members fuel structs acc rest with
      | none =>
        rw [hb2] at h
        exact Option.noConfusion h
      | some pr2 =>
        obtain ⟨acc2, rest2⟩ := pr2
        rw [hb2] at h
        have h2 : (acc2, mem :: rest2) = (acc', ret) := Option.some.inj h
        have hacc : acc2 = acc' := (Prod.mk.injEq _ _ _ _ ▸ h2).1
        have hrec := build_members_acc fuel structs acc rest acc2 rest2 hb2 hc
        rw [hacc] at hrec
        exact hrec
termination_by (fuel, l.length + 1)

end

/-- Characterization of the flattening loop: the final accumulator is
canonical, presence is monotone, and every processed root is present with a
successful flattening. -/
theorem pass2Loop_char (fuel : Nat) (structs : List (Nat × Structure)) :
    ∀ (addrs : List Nat) (acc N : List (Nat × Structure)),
      pass2Loop fuel structs acc addrs = some N → canonAcc structs acc →
      canonAcc structs N ∧
      (∀ x, (alookup acc x).isSome → (alookup N x).isSome) ∧
      (∀ a ∈ addrs, (alookup N a).isSome ∧
        ∃ ra, flatMembers fuel structs a = some ra) := by
  intro addrs
  induction addrs with
  | nil =>
    intro acc N h hc
    rw [pass2Loop] at h
    cases h
    exact ⟨hc, fun x hx => hx, by intro a ha; cases ha⟩
  | cons a rest ih =>
    intro acc N h hc
    rw [pass2Loop] at h
    cases hbs : build_struct fuel structs acc a with
    | none =>
      rw [hbs] at h
      exact Option.noConfusion h
    | some pr =>
      obtain ⟨acc1, ret⟩ := pr
      rw [hbs] at h
      have h2 : pass2Loop fuel structs acc1 rest = some N := h
      obtain ⟨hc1, hmono1, hpres1⟩ :=
        build_struct_acc fuel structs acc a acc1 ret hbs hc
      obtain ⟨hcN, hmonoN, hrest⟩ := ih acc1 N h2 hc1
      have hflat : flatMembers fuel structs a = some ret := by
        rw [← build_struct_snd fuel structs acc a, hbs]
        rfl
      refine ⟨hcN, fun x hx => hmonoN x (hmono1 x hx), ?_⟩
      intro b hb
      rcases List.mem_cons.mp hb with hb | hb
      · subst hb
        exact ⟨hmonoN b hpres1, ret, hflat⟩
      · exact hrest b hb

/-- Characterization of the whole flattening pass: keys outside the input
map stay absent; every key of the input map ends up mapped to its structure
with members flattened at the pass's recursion depth. -/
theorem pass2_char (fuel : Nat) (structs N : List (Nat × Structure))
    (h : pass2 fuel structs = some N) (x : Nat) :
    (alookup structs x = none → alookup N x = none) ∧
    (∀ s, alookup structs x = some s →
      ∃ r, flatMembers fuel structs x = some r ∧
        alookup N x = some (s.withMembers r)) := by
  have hempty : canonAcc structs [] := fun y v hv => Option.noConfusion hv
  obtain ⟨hcN, _, hall⟩ :=
    pass2Loop_char fuel structs (structs.map Prod.fst) [] N h hempty
  constructor
  · intro hnone
    cases hN : alookup N x with
    | none => rfl
    | some v =>
      obtain ⟨s, k, r, hs, _, _⟩ := hcN x v hN
      rw [hnone] at hs
      exact Option.noConfusion hs
  · intro s hs
    obtain ⟨hpres, ra, hra⟩ := hall x (alookup_mem_keys hs)
    cases hN : alookup N x with
    | none => rw [hN] at hpres; exact Bool.noConfusion hpres
    | some v =>
      obtain ⟨s', k, r, hs', hr, hv⟩ := hcN x v hN
      rw [hs] at hs'
      have hss : s = s' := Option.some.inj hs'
      have hrra : r = ra := flatMembers_fuel_irrel k fuel structs x r ra hr hra
      have hval : some v = some (s.withMembers ra) := by
        rw [hv, ← hss, hrra]
      exact ⟨ra, hra, hval⟩

/-- `withMembers` projects back. -/
theorem withMembers_members (s : Structure) (r : List StructMember) :
    (s.withMembers r).members = r := rfl

/-- `withMembers` overwrites a previous `withMembers`. -/
theorem withMembers_withMembers (s : Structure) (r r' : List StructMember) :
    (s.withMembers r).withMembers r' = s.withMembers r' := rfl

/-- How one flattening step rewrites a member: name, type and offset are
kept, and members whose type is not in the map are kept whole. -/
def MemRel (structs : List (Nat × Structure)) (mem mem' : StructMember) :
    Prop :=
  mem'.name = mem.name ∧ mem'.type_offset = mem.type_offset ∧
  mem'.member_offset = mem.member_offset ∧
  (¬ (alookup structs mem.type_offset).isSome = true → mem' = mem)

/-- Each member of a flattened member list is step-related to its origin. -/
theorem flatMemList_rel (k : Nat) (structs : List (Nat × Structure)) :
    ∀ (l r : List StructMember), flatMemList k structs l = some r →
      List.Forall₂ (MemRel structs) l r := by
  intro l
  induction l with
  | nil =>
    intro r h
    rw [flatMemList] at h
    cases h
    exact List.Forall₂.nil
  | cons mem rest ih =>
    intro r h
    rw [flatMemList] at h
    by_cases hin : (alookup structs mem.type_offset).isSome = true
    · rw [if_pos hin] at h
      cases hf : flatMembers k structs mem.type_offset with
      | none => rw [hf] at h; exact Option.noConfusion h
      | some fields =>
        rw [hf] at h
        cases hr : flatMemList k structs rest with
        | none => rw [hr] at h; exact Option.noConfusion h
        | some rest2 =>
          rw [hr] at h
          cases h
          refine List.Forall₂.cons ?_ (ih rest2 hr)
          obtain ⟨e1, e2, e3, _⟩ := withFields_spec mem fields
          exact ⟨e1, e2, e3, fun hc => absurd hin hc⟩
    · rw [if_neg hin] at h
      cases hr : flatMemList k structs rest with
      | none => rw [hr] at h; exact Option.noConfusion h
      | some rest2 =>
        rw [hr] at h
        cases h
        exact List.Forall₂.cons ⟨rfl, rfl, rfl, fun _ => rfl⟩ (ih rest2 hr)

/-- Two maps with the same key set have lookups of equal definedness. -/
theorem alookup_isSome_congr (m m' : List (Nat × Structure))
    (h1 : ∀ x, alookup m' x = none ↔ alookup m x = none) (t : Nat) :
    (alookup m' t).isSome = (alookup m t).isSome := by
  cases hc : alookup m' t with
  | none =>
    cases hc2 : alookup m t with
    | none => rfl
    | some s =>
      have hn := (h1 t).mp hc
      rw [hn] at hc2
      exact Option.noConfusion hc2
  | some s =>
    cases hc2 : alookup m t with
    | none =>
      have hn := (h1 t).mpr hc2
      rw [hn] at hc
      exact Option.noConfusion hc
    | some s2 => rfl

mutual

/-- Flattening a map that is itself the output of a flattening pass gives
the same member lists as flattening the original map: the hypotheses say
`m'` has the same keys as `m`, each key holding `m`'s structure with members
flattened over `m`. -/
theorem flat_idem_members (m m' : List (Nat × Structure))
    (h1 : ∀ x, alookup m' x = none ↔ alookup m x = none)
    (h2 : ∀ x s', alookup m' x = some s' →
      ∃ s k r, alookup m x = some s ∧ flatMembers k m x = some r ∧
        s' = s.withMembers r)
    (n : Nat) (x : Nat) :
    flatMembers n m' x = flatMembers n m x := by
  match n with
  | 0 => rw [flatMembers, flatMembers]
  | k + 1 =>
    rw [flatMembers, flatMembers]
    cases hm : alookup m x with
    | none =>
      have hm' : alookup m' x = none := (h1 x).mpr hm
      rw [hm']
    | some s =>
      cases hm' : alookup m' x with
      | none =>
        have hn := (h1 x).mp hm'
        rw [hn] at hm
        exact Option.noConfusion hm
      | some s' =>
        show flatMemList k m' s'.members = flatMemList k m s.members
        obtain ⟨s0, k0, r0, hs0, hr0, hv⟩ := h2 x s' hm'
        have hss : s0 = s := by
          rw [hm] at hs0
          exact (Option.some.inj hs0).symm
        subst hss
        match k0, hr0 with
        | 0, hr0 =>
          rw [flatMembers] at hr0
          exact Option.noConfusion hr0
        | k1 + 1, hr0 =>
          rw [flatMembers, hm] at hr0
          have hr0' : flatMemList k1 m s0.members = some r0 := hr0
          have hrel := flatMemList_rel k1 m s0.members r0 hr0'
          have hsm : s'.members = r0 := by rw [hv, withMembers_members]
          rw [hsm]
          exact flat_idem_list m m' h1 h2 k s0.members r0 hrel
termination_by (n, 0)

/-- List version of `flat_idem_members`. -/
theorem flat_idem_list (m m' : List (Nat × Structure))
    (h1 : ∀ x, alookup m' x = none ↔ alookup m x = none)
    (h2 : ∀ x s', alookup m' x = some s' →
      ∃ s k r, alookup m x = some s ∧ flatMembers k m x = some r ∧
        s' = s.withMembers r)
    (n : Nat) (l r : List StructMember)
    (hrel : List.Forall₂ (MemRel m) l r) :
    flatMemList n m' r = flatMemList n m l := by
  match l, r, hrel with
  | [], [], _ => rw [flatMemList, flatMemList]
  | mem :: rest, mem' :: rest', List.Forall₂.cons hmem hrest =>
    rw [flatMemList, flatMemList]
    obtain ⟨hn, ht, ho, hout⟩ := hmem
    have hsame : (alookup m' mem'.type_offset).isSome
        = (alookup m mem.type_offset).isSome := by
      rw [ht]
      exact alookup_isSome_congr m m' h1 mem.type_offset
    by_cases hin : (alookup m mem.type_offset).isSome = true
    · have hin' : (alookup m' mem'.type_offset).isSome = true := by
        rw [hsame]; exact hin
      rw [if_pos hin, if_pos hin']
      have hfields : flatMembers n m' mem'.type_offset
          = flatMembers n m mem.type_offset := by
        rw [ht]
        exact flat_idem_members m m' h1 h2 n mem.type_offset
      rw [hfields]
      cases hf : flatMembers n m mem.type_offset with
      | none => rfl
      | some fields =>
        have hrest2 : flatMemList n m' rest' = flatMemList n m rest :=
          flat_idem_list m m' h1 h2 n rest rest' hrest
        rw [hrest2]
        cases hr2 : flatMemList n m rest with
        | none => rfl
        | some rest2 =>
          show some (mem'.withFields fields :: rest2)
            = some (mem.withFields fields :: rest2)
          rw [withFields_congr hn ht ho]
    · have hin' : ¬ (alookup m' mem'.type_offset).isSome = true := by
        rw [hsame]; exact hin
      rw [if_neg hin, if_neg hin']
      rw [hout hin]
      have hrest2 : flatMemList n m' rest' = flatMemList n m rest :=
        flat_idem_list m m' h1 h2 n rest rest' hrest
      rw [hrest2]
termination_by (n, l.length + 1)

end

/-- C6: the structure-flattening pass (`pass2`, the `build_struct` loop of
`postprocess`) is idempotent: whenever it succeeds on a map `m` producing
`m1`, and succeeds again on `m1` producing `m2`, then `m2` and `m1` agree as
maps (every lookup coincides). -/
theorem C6_flattening_idempotent (f1 f2 : Nat)
    (m m1 m2 : List (Nat × Structure)) (x : Nat)
    (hp1 : pass2 f1 m = some m1) (hp2 : pass2 f2 m1 = some m2) :
    alookup m2 x = alookup m1 x := by
  have h1 : ∀ y, alookup m1 y = none ↔ alookup m y = none := by
    intro y
    constructor
    · intro hy
      cases hc : alookup m y with
      | none => rfl
      | some s =>
        obtain ⟨r, _, hN⟩ := (pass2_char f1 m m1 hp1 y).2 s hc
        rw [hN] at hy
        exact Option.noConfusion hy
    · intro hy
      exact (pass2_char f1 m m1 hp1 y).1 hy
  have h2 : ∀ y s', alookup m1 y = some s' →
      ∃ s k r, alookup m y = some s ∧ flatMembers k m y = some r ∧
        s' = s.withMembers r := by
    intro y s' hy
    cases hc : alookup m y with
    | none =>
      rw [(pass2_char f1 m m1 hp1 y).1 hc] at hy
      exact Option.noConfusion hy
    | some s =>
      obtain ⟨r, hr, hN⟩ := (pass2_char f1 m m1 hp1 y).2 s hc
      rw [hy] at hN
      exact ⟨s, f1, r, rfl, hr, Option.some.inj hN⟩
  cases hm : alookup m x with
  | none =>
    have hm1 : alookup m1 x = none := (pass2_char f1 m m1 hp1 x).1 hm
    have hm2 : alookup m2 x = none := (pass2_char f2 m1 m2 hp2 x).1 hm1
    rw [hm1, hm2]
  | some s =>
    obtain ⟨r, hr, hN1⟩ := (pass2_char f1 m m1 hp1 x).2 s hm
    obtain ⟨r2, hr2, hN2⟩ :=
      (pass2_char f2 m1 m2 hp2 x).2 (s.withMembers r) hN1
    have hidem : flatMembers f2 m1 x = flatMembers f2 m x :=
      flat_idem_members m m1 h1 h2 f2 x
    rw [hidem] at hr2
    have hrr : r2 = r := flatMembers_fuel_irrel f2 f1 m x r2 r hr2 hr
    rw [hN2, hN1, hrr, withMembers_withMembers]

/-- A two-level (acyclic) structure map: `A` (offset 1) has a member of type
`B` (offset 2); `B`'s member has a non-struct type. -/
def nestedStructs : List (Nat × Structure) :=
  [(1, ⟨some "A", 1, [.mk "b" 2 0 []]⟩), (2, ⟨some "B", 2, [.mk "x" 10 4 []]⟩)]

/-- The flattening of `nestedStructs` (a fixed point of the pass). -/
def nestedFlat : List (Nat × Structure) :=
  [(2, ⟨some "B", 2, [.mk "x" 10 4 []]⟩),
   (1, ⟨some "A", 1, [.mk "b" 2 0 [.mk "x" 10 4 []]]⟩)]

/-- Witness for C6: on the concrete two-level map both passes succeed, and
the theorem applies (the second pass changes nothing at key 1). -/
theorem C6_witness : alookup nestedFlat 1 = alookup nestedFlat 1 :=
  C6_flattening_idempotent 3 3 nestedStructs nestedFlat nestedFlat 1
    (by simp [pass2, pass2Loop, build_struct, build_members, nestedStructs,
      nestedFlat, alookup, ainsert, StructMember.type_offset,
      StructMember.withFields, Structure.withMembers])
    (by simp [pass2, pass2Loop, build_struct, build_members, nestedStructs,
      nestedFlat, alookup, ainsert, StructMember.type_offset,
      StructMember.withFields, Structure.withMembers])

/-! ## Analysis of the typedef-flattening pass (claims C4, C5) -/

/-- `withName` keeps the members. -/
theorem withName_members (s : Structure) (n : Option String) :
    (s.withName n).members = s.members := rfl

/-- `withName` overwrites a previous `withName`. -/
theorem withName_withName (s : Structure) (n n' : Option String) :
    (s.withName n).withName n' = s.withName n' := rfl

/-- `withName` sets the name. -/
theorem withName_name (s : Structure) (n : Option String) :
    (s.withName n).name = n := rfl

/-- `withMembers` keeps the name. -/
theorem withMembers_name (s : Structure) (r : List StructMember) :
    (s.withMembers r).name = s.name := rfl

/-- Unfolding `pass1` one typedef at a time. -/
theorem pass1_cons (q : Nat × Typedef) (rest : List (Nat × Typedef))
    (structs : List (Nat × Structure)) (bts : List (Nat × String)) :
    pass1 (q :: rest) structs bts
      = pass1 rest (pass1Step (structs, bts) q).1 (pass1Step (structs, bts) q).2 :=
  rfl

/-- The structure component of one typedef-flattening step. -/
theorem pass1Step_fst (structs : List (Nat × Structure))
    (bts : List (Nat × String)) (q : Nat × Typedef) :
    (pass1Step (structs, bts) q).1
      = match alookup structs q.2.type_offset with
        | some strct =>
          ainsert (ainsert structs q.2.type_offset
            (strct.withName (some q.2.name))) q.1
            (strct.withName (some q.2.name))
        | none => structs := rfl

/-- A step whose typedef neither occupies nor references key `y` leaves the
lookup at `y` unchanged. -/
theorem pass1Step_lookup_away (structs : List (Nat × Structure))
    (bts : List (Nat × String)) (q : Nat × Typedef) (y : Nat)
    (hq1 : q.1 ≠ y) (hq2 : q.2.type_offset ≠ y) :
    alookup (pass1Step (structs, bts) q).1 y = alookup structs y := by
  rw [pass1Step_fst]
  cases hc : alookup structs q.2.type_offset with
  | none => rfl
  | some strct =>
    rw [alookup_ainsert, if_neg hq1, alookup_ainsert, if_neg hq2]

/-- A step whose typedef does not occupy key `y` preserves the member list
of the structure recorded at `y` (a step may rename it, never change its
members). -/
theorem pass1Step_members_at (structs : List (Nat × Structure))
    (bts : List (Nat × String)) (q : Nat × Typedef) (y : Nat)
    (ms : List StructMember) (hq : q.1 ≠ y)
    (hy : (alookup structs y).map Structure.members = some ms) :
    (alookup (pass1Step (structs, bts) q).1 y).map Structure.members
      = some ms := by
  rw [pass1Step_fst]
  cases hc : alookup structs q.2.type_offset with
  | none => exact hy
  | some strct =>
    rw [alookup_ainsert, if_neg hq, alookup_ainsert]
    by_cases ht : q.2.type_offset = y
    · rw [if_pos ht]
      subst ht
      rw [hc] at hy
      have hms : strct.members = ms := Option.some.inj hy
      show some (strct.withName (some q.2.name)).members = some ms
      rw [withName_members, hms]
    · rw [if_neg ht]
      exact hy

/-- Invariant of the typedef loop for claim C5: provided no typedef occupies
the target structure's offset, and the offset `a` is only occupied by the
typedef `td`, the member list `ms` of the structure at `td.type_offset`
survives the whole loop at that offset, and (once `(a, td)` is processed)
also at `a`. -/
theorem pass1_members_inv (a : Nat) (td : Typedef) (ms : List StructMember) :
    ∀ (tds : List (Nat × Typedef)) (structs : List (Nat × Structure))
      (bts : List (Nat × String)),
      (∀ q ∈ tds, q.1 ≠ td.type_offset) →
      (∀ q ∈ tds, q.1 = a → q.2 = td) →
      (alookup structs td.type_offset).map Structure.members = some ms →
      ((a, td) ∈ tds ∨
        (alookup structs a).map Structure.members = some ms) →
      (alookup (pass1 tds structs bts).1 td.type_offset).map Structure.members
          = some ms ∧
      (alookup (pass1 tds structs bts).1 a).map Structure.members = some ms := by
  intro tds
  induction tds with
  | nil =>
    intro structs bts hk1 hk2 hT hA
    rcases hA with hA | hA
    · cases hA
    · exact ⟨hT, hA⟩
  | cons q rest ih =>
    intro structs bts hk1 hk2 hT hA
    rw [pass1_cons]
    have hk1' : ∀ p ∈ rest, p.1 ≠ td.type_offset :=
      fun p hp => hk1 p (List.mem_cons_of_mem _ hp)
    have hk2' : ∀ p ∈ rest, p.1 = a → p.2 = td :=
      fun p hp => hk2 p (List.mem_cons_of_mem _ hp)
    have hq1 : q.1 ≠ td.type_offset := hk1 q (List.mem_cons_self _ _)
    have hT' : (alookup (pass1Step (structs, bts) q).1
        td.type_offset).map Structure.members = some ms :=
      pass1Step_members_at structs bts q td.type_offset ms hq1 hT
    by_cases hqa : q.1 = a
    · have hqtd : q.2 = td := hk2 q (List.mem_cons_self _ _) hqa
      have hA' : (alookup (pass1Step (structs, bts) q).1 a).map
          Structure.members = some ms := by
        rw [pass1Step_fst]
        cases hc : alookup structs q.2.type_offset with
        | none =>
          rw [hqtd] at hc
          rw [hc] at hT
          exact Option.noConfusion hT
        | some strct =>
          rw [alookup_ainsert, if_pos hqa]
          rw [hqtd] at hc
          rw [hc] at hT
          have hms : strct.members = ms := Option.some.inj hT
          show some (strct.withName (some q.2.name)).members = some ms
          rw [withName_members, hms]
      exact ih (pass1Step (structs, bts) q).1 (pass1Step (structs, bts) q).2
        hk1' hk2' hT' (Or.inr hA')
    · rcases hA with hA | hA
      · rcases List.mem_cons.mp hA with heq | hA'
        · have : q.1 = a := by rw [← heq]
          exact absurd this hqa
        · exact ih (pass1Step (structs, bts) q).1
            (pass1Step (structs, bts) q).2 hk1' hk2' hT' (Or.inl hA')
      · have hA' : (alookup (pass1Step (structs, bts) q).1 a).map
            Structure.members = some ms :=
          pass1Step_members_at structs bts q a ms hqa hA
        exact ih (pass1Step (structs, bts) q).1 (pass1Step (structs, bts) q).2
          hk1' hk2' hT' (Or.inr hA')

/-- The base-type component of one typedef-flattening step: when the
typedef's target offset is a recorded base type, its display name is copied
under the typedef's own offset; base-type values are never modified in
place. -/
theorem pass1Step_snd (structs : List (Nat × Structure))
    (bts : List (Nat × String)) (q : Nat × Typedef) :
    (pass1Step (structs, bts) q).2
      = match alookup bts q.2.type_offset with
        | some bt => ainsert bts q.1 bt
        | none => bts := rfl

/-- A step whose typedef does not occupy key `y` preserves the base-type
entry at `y`. -/
theorem pass1Step_base_at (structs : List (Nat × Structure))
    (bts : List (Nat × String)) (q : Nat × Typedef) (y : Nat) (bt : String)
    (hq : q.1 ≠ y) (hy : alookup bts y = some bt) :
    alookup (pass1Step (structs, bts) q).2 y = some bt := by
  rw [pass1Step_snd]
  cases hc : alookup bts q.2.type_offset with
  | none => exact hy
  | some bt2 =>
    rw [alookup_ainsert, if_neg hq]
    exact hy

/-- Invariant of the typedef loop for the base-type half of claim C5:
provided no typedef occupies the base type's offset, and the offset `a` is
only occupied by the typedef `td`, the display name `bt` recorded at
`td.type_offset` survives the whole loop at that offset, and (once
`(a, td)` is processed) is also recorded at `a`. -/
theorem pass1_base_inv (a : Nat) (td : Typedef) (bt : String) :
    ∀ (tds : List (Nat × Typedef)) (structs : List (Nat × Structure))
      (bts : List (Nat × String)),
      (∀ q ∈ tds, q.1 ≠ td.type_offset) →
      (∀ q ∈ tds, q.1 = a → q.2 = td) →
      alookup bts td.type_offset = some bt →
      ((a, td) ∈ tds ∨ alookup bts a = some bt) →
      alookup (pass1 tds structs bts).2 td.type_offset = some bt ∧
      alookup (pass1 tds structs bts).2 a = some bt := by
  intro tds
  induction tds with
  | nil =>
    intro structs bts hk1 hk2 hT hA
    rcases hA with hA | hA
    · cases hA
    · exact ⟨hT, hA⟩
  | cons q rest ih =>
    intro structs bts hk1 hk2 hT hA
    rw [pass1_cons]
    have hk1' : ∀ p ∈ rest, p.1 ≠ td.type_offset :=
      fun p hp => hk1 p (List.mem_cons_of_mem _ hp)
    have hk2' : ∀ p ∈ rest, p.1 = a → p.2 = td :=
      fun p hp => hk2 p (List.mem_cons_of_mem _ hp)
    have hq1 : q.1 ≠ td.type_offset := hk1 q (List.mem_cons_self _ _)
    have hT' : alookup (pass1Step (structs, bts) q).2 td.type_offset
        = some bt :=
      pass1Step_base_at structs bts q td.type_offset bt hq1 hT
    by_cases hqa : q.1 = a
    · have hqtd : q.2 = td := hk2 q (List.mem_cons_self _ _) hqa
      have hA' : alookup (pass1Step (structs, bts) q).2 a = some bt := by
        rw [pass1Step_snd, hqtd, hT]
        rw [alookup_ainsert, if_pos hqa]
      exact ih (pass1Step (structs, bts) q).1 (pass1Step (structs, bts) q).2
        hk1' hk2' hT' (Or.inr hA')
    · rcases hA with hA | hA
      · rcases List.mem_cons.mp hA with heq | hA'
        · have : q.1 = a := by rw [← heq]
          exact absurd this hqa
        · exact ih (pass1Step (structs, bts) q).1
            (pass1Step (structs, bts) q).2 hk1' hk2' hT' (Or.inl hA')
      · have hA' : alookup (pass1Step (structs, bts) q).2 a = some bt :=
          pass1Step_base_at structs bts q a bt hqa hA
        exact ih (pass1Step (structs, bts) q).1 (pass1Step (structs, bts) q).2
          hk1' hk2' hT' (Or.inr hA')

/-- Invariant of the typedef loop for claim C4: when no other typedef
occupies or references either the structure's offset or the typedef's own
offset, the loop leaves the exactly-renamed structure at both offsets. -/
theorem pass1_exact_inv (a : Nat) (td : Typedef) (s : Structure) :
    ∀ (tds : List (Nat × Typedef)) (structs : List (Nat × Structure))
      (bts : List (Nat × String)),
      (∀ q ∈ tds, q ≠ (a, td) → q.1 ≠ td.type_offset ∧ q.1 ≠ a ∧
        q.2.type_offset ≠ td.type_offset ∧ q.2.type_offset ≠ a) →
      ((alookup structs td.type_offset = some s ∧ (a, td) ∈ tds) ∨
        (alookup structs td.type_offset = some (s.withName (some td.name)) ∧
         alookup structs a = some (s.withName (some td.name)))) →
      alookup (pass1 tds structs bts).1 td.type_offset
          = some (s.withName (some td.name)) ∧
      alookup (pass1 tds structs bts).1 a
          = some (s.withName (some td.name)) := by
  intro tds
  induction tds with
  | nil =>
    intro structs bts hothers hstate
    rcases hstate with ⟨_, hA⟩ | ⟨hT, hA⟩
    · cases hA
    · exact ⟨hT, hA⟩
  | cons q rest ih =>
    intro structs bts hothers hstate
    rw [pass1_cons]
    have hothers' : ∀ p ∈ rest, p ≠ (a, td) → p.1 ≠ td.type_offset ∧
        p.1 ≠ a ∧ p.2.type_offset ≠ td.type_offset ∧ p.2.type_offset ≠ a :=
      fun p hp => hothers p (List.mem_cons_of_mem _ hp)
    by_cases hq : q = (a, td)
    · subst hq
      have hstep1 : (pass1Step (structs, bts) (a, td)).1
          = ainsert (ainsert structs td.type_offset
              (s.withName (some td.name))) a (s.withName (some td.name)) := by
        rw [pass1Step_fst]
        show (match alookup structs td.type_offset with
          | some strct =>
            ainsert (ainsert structs td.type_offset
              (strct.withName (some td.name))) a
              (strct.withName (some td.name))
          | none => structs) = _
        rcases hstate with ⟨hT, _⟩ | ⟨hT, _⟩
        · rw [hT]
        · rw [hT]
          show ainsert (ainsert structs td.type_offset
              ((s.withName (some td.name)).withName (some td.name))) a
              ((s.withName (some td.name)).withName (some td.name)) = _
          rw [withName_withName]
      have hL1 : alookup (pass1Step (structs, bts) (a, td)).1 td.type_offset
          = some (s.withName (some td.name)) := by
        rw [hstep1, alookup_ainsert]
        by_cases hat : a = td.type_offset
        · rw [if_pos hat]
        · rw [if_neg hat, alookup_ainsert, if_pos rfl]
      have hL2 : alookup (pass1Step (structs, bts) (a, td)).1 a
          = some (s.withName (some td.name)) := by
        rw [hstep1, alookup_ainsert, if_pos rfl]
      exact ih (pass1Step (structs, bts) (a, td)).1
        (pass1Step (structs, bts) (a, td)).2 hothers' (Or.inr ⟨hL1, hL2⟩)
    · obtain ⟨hq1, hq2, hq3, hq4⟩ := hothers q (List.mem_cons_self _ _) hq
      have hpresT := pass1Step_lookup_away structs bts q td.type_offset hq1 hq3
      have hpresA := pass1Step_lookup_away structs bts q a hq2 hq4
      rcases hstate with ⟨hT, hmem⟩ | ⟨hT, hA⟩
      · rcases List.mem_cons.mp hmem with heq | hmem'
        · exact absurd heq.symm hq
        · exact ih (pass1Step (structs, bts) q).1
            (pass1Step (structs, bts) q).2 hothers'
            (Or.inl ⟨by rw [hpresT]; exact hT, hmem'⟩)
      · exact ih (pass1Step (structs, bts) q).1 (pass1Step (structs, bts) q).2
          hothers' (Or.inr ⟨by rw [hpresT]; exact hT, by rw [hpresA]; exact hA⟩)

/-- C5 (amended): a typedef whose referenced-type offset DIRECTLY names a
recorded structure or base type is resolved whatever the processing order —
provided no typedef occupies the referenced offset, and the typedef's own
offset is occupied only by this typedef.  For a structure target, after
postprocessing a lookup by the typedef's offset yields a structure entry
carrying the same (flattened) member list as the entry at the structure's
own offset; for a base-type target, the base type's display name is
recorded under the typedef's offset.  (Chains of two or more links resolve
only for favorable processing orders, see the counterexample.) -/
theorem C5_direct_alias_resolves (fuel : Nat) (m m' : Mapper) (a : Nat)
    (td : Typedef)
    (hmem : (a, td) ∈ m.typedefs)
    (hk1 : ∀ q ∈ m.typedefs, q.1 ≠ td.type_offset)
    (hk2 : ∀ q ∈ m.typedefs, q.1 = a → q.2 = td)
    (hpp : postprocess fuel m = some m') :
    (∀ s : Structure, alookup m.structs td.type_offset = some s →
      ∃ rA rT, alookup m'.structs a = some rA ∧
        alookup m'.structs td.type_offset = some rT ∧
        rA.members = rT.members) ∧
    (∀ bt : String, alookup m.base_types td.type_offset = some bt →
      alookup m'.base_types a = some bt) := by
  unfold postprocess at hpp
  cases hp2 : pass2 fuel (pass1 m.typedefs m.structs m.base_types).1 with
  | none => rw [hp2] at hpp; exact Option.noConfusion hpp
  | some structs2 =>
    rw [hp2] at hpp
    obtain rfl : m' = _ := (Option.some.inj hpp).symm
    constructor
    · intro s hs
      obtain ⟨hT, hA⟩ := pass1_members_inv a td s.members m.typedefs
        m.structs m.base_types hk1 hk2 (by rw [hs]; rfl) (Or.inl hmem)
      cases hTt : alookup (pass1 m.typedefs m.structs m.base_types).1
          td.type_offset with
      | none => rw [hTt] at hT; exact Option.noConfusion hT
      | some sT =>
        rw [hTt] at hT
        have hTm : sT.members = s.members := Option.some.inj hT
        cases hTa : alookup (pass1 m.typedefs m.structs m.base_types).1 a with
        | none => rw [hTa] at hA; exact Option.noConfusion hA
        | some sA =>
          rw [hTa] at hA
          have hAm : sA.members = s.members := Option.some.inj hA
          obtain ⟨rA, hrA, hNA⟩ := (pass2_char fuel _ structs2 hp2 a).2 sA hTa
          obtain ⟨rT, hrT, hNT⟩ :=
            (pass2_char fuel _ structs2 hp2 td.type_offset).2 sT hTt
          have hcong : flatMembers fuel
                (pass1 m.typedefs m.structs m.base_types).1 a
              = flatMembers fuel
                (pass1 m.typedefs m.structs m.base_types).1 td.type_offset :=
            flatMembers_congr fuel _ a td.type_offset sA sT hTa hTt
              (by rw [hAm, hTm])
          rw [hcong, hrT] at hrA
          have hrr : rT = rA := Option.some.inj hrA
          refine ⟨sA.withMembers rA, sT.withMembers rT, hNA, hNT, ?_⟩
          rw [withMembers_members, withMembers_members, hrr]
    · intro bt hbt
      exact (pass1_base_inv a td bt m.typedefs m.structs m.base_types
        hk1 hk2 hbt (Or.inl hmem)).2

/-- C4 (amended): for a typedef over a recorded structure, when no OTHER
typedef occupies or references either the structure's offset or the
typedef's offset, postprocessing leaves the SAME entry under both offsets,
and its display name is the typedef's name.  (With two typedefs over one
structure the name part fails, see the counterexample.) -/
theorem C4_typedef_alias (fuel : Nat) (m m' : Mapper) (a : Nat)
    (td : Typedef) (s : Structure)
    (hmem : (a, td) ∈ m.typedefs)
    (hs : alookup m.structs td.type_offset = some s)
    (hothers : ∀ q ∈ m.typedefs, q ≠ (a, td) → q.1 ≠ td.type_offset ∧
      q.1 ≠ a ∧ q.2.type_offset ≠ td.type_offset ∧ q.2.type_offset ≠ a)
    (hpp : postprocess fuel m = some m') :
    ∃ r, alookup m'.structs td.type_offset = some r ∧
      alookup m'.structs a = some r ∧ r.name = some td.name := by
  unfold postprocess at hpp
  cases hp2 : pass2 fuel (pass1 m.typedefs m.structs m.base_types).1 with
  | none => rw [hp2] at hpp; exact Option.noConfusion hpp
  | some structs2 =>
    rw [hp2] at hpp
    obtain rfl : m' = _ := (Option.some.inj hpp).symm
    obtain ⟨hT, hA⟩ := pass1_exact_inv a td s m.typedefs m.structs
      m.base_types hothers (Or.inl ⟨hs, hmem⟩)
    obtain ⟨rT, hrT, hNT⟩ :=
      (pass2_char fuel _ structs2 hp2 td.type_offset).2 _ hT
    obtain ⟨rA, hrA, hNA⟩ := (pass2_char fuel _ structs2 hp2 a).2 _ hA
    have hcong : flatMembers fuel
          (pass1 m.typedefs m.structs m.base_types).1 td.type_offset
        = flatMembers fuel
          (pass1 m.typedefs m.structs m.base_types).1 a :=
      flatMembers_congr fuel _ td.type_offset a _ _ hT hA rfl
    rw [hcong, hrA] at hrT
    have hrr : rA = rT := Option.some.inj hrT
    rw [hrr] at hNA
    refine ⟨(s.withName (some td.name)).withMembers rT, hNT, hNA, ?_⟩
    rw [withMembers_name, withName_name]

/-- The member `x` of the example structures (non-struct type 10). -/
def xMember : StructMember := .mk "x" 10 0 []

/-- The example structure at offset 20 (initially unnamed). -/
def structS : Structure := ⟨none, 20, [xMember]⟩

/-- Two typedefs `T1` (offset 100) and `T2` (offset 200) both referencing
the structure at offset 20. -/
def mapper4 : Mapper :=
  ⟨[(100, ⟨"T1", 20⟩), (200, ⟨"T2", 20⟩)], [(20, structS)], [], [(10, "int")]⟩

/-- `postprocess 5 mapper4`, written out. -/
def res4 : Mapper :=
  ⟨[(100, ⟨"T1", 20⟩), (200, ⟨"T2", 20⟩)],
   [(20, ⟨some "T2", 20, [xMember]⟩), (100, ⟨some "T1", 20, [xMember]⟩),
    (200, ⟨some "T2", 20, [xMember]⟩)],
   [], [(10, "int")]⟩

/-- Counterexample to C4 as stated: in `mapper4` the typedef `(100, T1)`
references recorded structure 20, yet after postprocessing the lookup by
the typedef's offset carries name `T1` while the lookup by the structure's
offset carries name `T2` (the other typedef's name, which overwrote it):
the two lookups do NOT both carry this typedef's name. -/
theorem C4_counterexample :
    postprocess 5 mapper4 = some res4 ∧
    (alookup res4.structs 100).map Structure.name = some (some "T1") ∧
    (alookup res4.structs 20).map Structure.name = some (some "T2") ∧
    some "T1" ≠ some "T2" := by
  refine ⟨?_, by decide, by decide, by decide⟩
  simp [postprocess, pass1, pass1Step, pass2, pass2Loop, build_struct,
    build_members, attachGlobals, alookup, ainsert, mapper4, res4, structS,
    xMember, Structure.withName, Structure.withMembers,
    StructMember.type_offset, StructMember.withFields]

/-- A typedef chain: `T2` (offset 200) references `T1` (offset 100), which
references structure 20 — listed in the order that processes `T2` first. -/
def mapper5 : Mapper :=
  ⟨[(200, ⟨"T2", 100⟩), (100, ⟨"T1", 20⟩)], [(20, structS)], [], []⟩

/-- `postprocess 5 mapper5`, written out. -/
def res5 : Mapper :=
  ⟨[(200, ⟨"T2", 100⟩), (100, ⟨"T1", 20⟩)],
   [(20, ⟨some "T1", 20, [xMember]⟩), (100, ⟨some "T1", 20, [xMember]⟩)],
   [], []⟩

/-- Counterexample to C5 as stated: the typedef chain
`200 → 100 → structure 20` is NOT resolved when the single typedef pass
processes `(200, T2)` before `(100, T1)` (one possible `HashMap` iteration
order): after postprocessing, a lookup by offset 200 finds nothing at all —
resolution of chains longer than one link depends on the processing order. -/
theorem C5_counterexample :
    postprocess 5 mapper5 = some res5 ∧
    alookup res5.structs 200 = none ∧
    alookup res5.base_types 200 = none := by
  refine ⟨?_, by decide, by decide⟩
  simp [postprocess, pass1, pass1Step, pass2, pass2Loop, build_struct,
    build_members, attachGlobals, alookup, ainsert, mapper5, res5, structS,
    xMember, Structure.withName, Structure.withMembers,
    StructMember.type_offset, StructMember.withFields]

/-- A single typedef `T` (offset 100) over structure 20. -/
def mapperW : Mapper :=
  ⟨[(100, ⟨"T", 20⟩)], [(20, structS)], [], []⟩

/-- `postprocess 5 mapperW`, written out. -/
def resW : Mapper :=
  ⟨[(100, ⟨"T", 20⟩)],
   [(20, ⟨some "T", 20, [xMember]⟩), (100, ⟨some "T", 20, [xMember]⟩)],
   [], []⟩

/-- Witness for the amended C4 on the concrete single-typedef mapper. -/
theorem C4_witness :
    ∃ r, alookup resW.structs 20 = some r ∧
      alookup resW.structs 100 = some r ∧ r.name = some "T" :=
  C4_typedef_alias 5 mapperW resW 100 ⟨"T", 20⟩ structS (by decide)
    (by decide) (by decide)
    (by simp [postprocess, pass1, pass1Step, pass2, pass2Loop, build_struct,
      build_members, attachGlobals, alookup, ainsert, mapperW, resW, structS,
      xMember, Structure.withName, Structure.withMembers,
      StructMember.type_offset, StructMember.withFields])

/-- A single typedef `BT` (offset 300) over the base type `int` (offset 10). -/
def mapperB : Mapper :=
  ⟨[(300, ⟨"BT", 10⟩)], [], [], [(10, "int")]⟩

/-- `postprocess 5 mapperB`, written out. -/
def resB : Mapper :=
  ⟨[(300, ⟨"BT", 10⟩)], [], [], [(10, "int"), (300, "int")]⟩

/-- Witness for the amended C5 on concrete single-link typedefs: one over a
structure, one over a base type. -/
theorem C5_witness :
    (∃ rA rT, alookup resW.structs 100 = some rA ∧
      alookup resW.structs 20 = some rT ∧ rA.members = rT.members) ∧
    alookup resB.base_types 300 = some "int" :=
  ⟨(C5_direct_alias_resolves 5 mapperW resW 100 ⟨"T", 20⟩ (by decide)
      (by decide) (by decide)
      (by simp [postprocess, pass1, pass1Step, pass2, pass2Loop, build_struct,
        build_members, attachGlobals, alookup, ainsert, mapperW, resW,
        structS, xMember, Structure.withName, Structure.withMembers,
        StructMember.type_offset, StructMember.withFields])).1
      structS (by decide),
   (C5_direct_alias_resolves 5 mapperB resB 300 ⟨"BT", 10⟩ (by decide)
      (by decide) (by decide)
      (by simp [postprocess, pass1, pass1Step, pass2, pass2Loop, build_struct,
        build_members, attachGlobals, alookup, ainsert, mapperB, resB,
        Structure.withName, Structure.withMembers,
        StructMember.type_offset, StructMember.withFields])).2
      "int" (by decide)⟩

end Cartographer
